import Mathlib

/-! To-do list application (`src/app.js`).

A shallow embedding of the task store, the category store, the filter, the
progress calculator and the category colour hash of `src/app.js`, followed by
the properties proved about them.

Conventions of the embedding:

* a JavaScript string is the list of its UTF-16 code units;
* the module-level arrays `tasks` and `categories` are passed in and returned;
* values read from the DOM (input fields, checkbox states) and from the clock
  are arguments of the handlers; `deleteTask` and the reorder handler take the
  parsed `data-id`, the checkbox handler reads it from the rendered row, where
  it went through Number::toString and is read back with `parseInt`;
* a Number that holds an integer is an `Int`; the one place where the source
  computes with fractions (`updateProgress`) uses an explicit model of
  binary64 rounding over `ℚ`;
* a Date object is its time value (milliseconds since the epoch, UTC), with
  `none` for an invalid date.
-/

namespace TodoApp

/-! ## Strings -/

/-- A JavaScript string, as the sequence of its UTF-16 code units. -/
abbrev JSString := List Nat

/-- The UTF-16 code units of one Unicode scalar value. -/
def utf16Char (c : Char) : List Nat :=
  if c.toNat < 0x10000 then [c.toNat]
  else [0xD800 + (c.toNat - 0x10000) / 0x400, 0xDC00 + (c.toNat - 0x10000) % 0x400]

/-- The JavaScript string written as the literal `s`. -/
def utf16 (s : String) : JSString :=
  s.toList.foldr (fun c acc => utf16Char c ++ acc) []

/-- ECMAScript `WhiteSpace` and `LineTerminator` code points, the characters
that `String.prototype.trim` strips. -/
def isWhiteSpace (c : Nat) : Bool :=
  c == 0x09 || c == 0x0A || c == 0x0B || c == 0x0C || c == 0x0D || c == 0x20 ||
  c == 0xA0 || c == 0x1680 || (0x2000 ≤ c && c ≤ 0x200A) ||
  c == 0x2028 || c == 0x2029 || c == 0x202F || c == 0x205F || c == 0x3000 ||
  c == 0xFEFF

/-- The method `String.prototype.trim`: strips leading and trailing white space. -/
def trim (s : JSString) : JSString :=
  ((s.dropWhile isWhiteSpace).reverse.dropWhile isWhiteSpace).reverse

/-- The method `String.prototype.includes`: `t` occurs in `s` as a contiguous substring. -/
def includes (s t : JSString) : Bool :=
  s.tails.any fun u => t.isPrefixOf u

/-! ## Tasks -/

/-- A task record as built in `addTask` (app.js:143-150). `createdAt` holds the
time value whose ISO-8601 rendering the source stores. -/
structure Task where
  id : Int
  text : JSString
  dueDate : JSString
  category : JSString
  completed : Bool
  createdAt : Int
  deriving DecidableEq

/-- The handler `addTask` (app.js:136-166) on the task array. `now` is the reading of
`Date.now()`, `created` the reading of `new Date()`, the three strings are the
values of `taskInput`, `dueDateInput` and `categoryInput`. -/
def addTask (tasks : List Task) (now created : Int)
    (taskInput dueDateInput categoryInput : JSString) : List Task :=
  let text := trim taskInput
  if text = [] then tasks
  else
    tasks ++ [{ id := now, text := text, dueDate := dueDateInput,
                category := categoryInput, completed := false, createdAt := created }]

/-- The handler `deleteTask` (app.js:188-194): `taskId` is the parsed `data-id` of the row
the event came from. -/
def deleteTask (tasks : List Task) (taskId : Int) : List Task :=
  tasks.filter fun task => task.id != taskId

/-- The handler `toggleTaskComplete` (app.js:169-173): `tasks.find` picks the first task
with the identifier and its `completed` field is assigned the checkbox state.
`none` is the `TypeError` raised when `find` returns `undefined`. -/
def toggleTaskComplete : List Task → Int → Bool → Option (List Task)
  | [], _, _ => none
  | task :: rest, taskId, checked =>
    if task.id = taskId then some ({ task with completed := checked } :: rest)
    else (toggleTaskComplete rest taskId checked).map (task :: ·)

/-- The Sortable `onEnd` callback (app.js:52-60): `dataIds` are the parsed
`data-id` attributes of the children of the list element after the drag. An
entry is `none` where `tasks.find` returns `undefined`. -/
def onEnd (tasks : List Task) (dataIds : List Int) : List (Option Task) :=
  dataIds.map fun taskId => tasks.find? fun task => task.id == taskId

/-! ## Identifiers in attributes

`renderTasks` stores `task.id` in the `data-id` attribute, which turns the
Number into a string, and the handlers read it back with `parseInt`. -/

/-- Floor of the binary logarithm; `fuel` bounds the number of halvings. -/
def log2Aux : Nat → Nat → Nat
  | 0, _ => 0
  | fuel + 1, n => if n < 2 then 0 else log2Aux fuel (n / 2) + 1

/-- Floor of the binary logarithm of `n` (0 for `n = 0`). -/
def log2Floor (n : Nat) : Nat := log2Aux n n

/-- Decimal digits of `n` as code units, most significant first; `fuel` bounds
the number of digits. -/
def decimalDigitsAux : Nat → Nat → List Nat
  | 0, _ => []
  | fuel + 1, n =>
    if n < 10 then [48 + n] else decimalDigitsAux fuel (n / 10) ++ [48 + n % 10]

/-- Decimal digits of `n` as code units, most significant first. -/
def decimalDigits (n : Nat) : List Nat := decimalDigitsAux (n + 1) n

/-- One step of the search for the shortest decimal: `x` is the value, `lo`
and `hi` are four times the distances from `x` to the ends of the interval of
reals that round to `x`, `closed` says whether the ends belong to it, `N` is
the number of decimal digits of `x`, and `k` the number of significant digits
tried. The result is `(s, k, n)` of Number::toString. -/
def shortestSearch (x lo hi : Nat) (closed : Bool) (N : Nat) : Nat → Nat → Nat × Nat × Nat
  | 0, _ => (x, N, N)
  | fuel + 1, k =>
    let p := 10 ^ (N - k)
    let a := x / p * p
    let b := a + p
    let okA := if closed then decide (4 * (x - a) ≤ lo) else decide (4 * (x - a) < lo)
    let okB := if closed then decide (4 * (b - x) ≤ hi) else decide (4 * (b - x) < hi)
    let pickA : Nat × Nat × Nat := (a / p, k, N)
    let pickB : Nat × Nat × Nat :=
      if b / p = 10 ^ k then (10 ^ (k - 1), k, N + 1) else (b / p, k, N)
    if okA && okB then
      if x - a < b - x then pickA
      else if b - x < x - a then pickB
      else if (a / p) % 2 = 0 then pickA else pickB
    else if okA then pickA
    else if okB then pickB
    else shortestSearch x lo hi closed N fuel (k + 1)

/-- The integers `(s, k, n)` of Number::toString (ECMA-262 §6.1.6.1.20) for an
integral Number `x ≥ 2^53`: `s` has `k` digits, `k` is as small as possible
with `s * 10^(n-k)` rounding to `x`, and among several such `s` the one
closest to `x` is taken. -/
def shortestDecimal (x : Nat) : Nat × Nat × Nat :=
  let e := log2Floor x
  let u := 2 ^ (e - 52)
  let m := x / u
  let N := (decimalDigits x).length
  shortestSearch x (if m = 2 ^ 52 then u else 2 * u) (2 * u) (m % 2 == 0) N N 1

/-- Number::toString of a non-negative integral Number. Below `2^53` every
integer is a Number and is its own shortest decimal. From `10^21` on the result
is in exponent form. -/
def unsignedToString (x : Nat) : JSString :=
  if x < 2 ^ 53 then decimalDigits x
  else
    match shortestDecimal x with
    | (s, k, n) =>
      if n ≤ 21 then decimalDigits s ++ List.replicate (n - k) 48
      else
        match decimalDigits s with
        | [] => []
        | d :: rest =>
          (if rest = [] then [d] else d :: 46 :: rest) ++ [101, 43] ++ decimalDigits (n - 1)

/-- Number::toString (radix 10) of an integral Number: what `setAttribute`
stores when given `task.id`. -/
def numberToString (x : Int) : JSString :=
  if x < 0 then 45 :: unsignedToString x.natAbs else unsignedToString x.natAbs

/-- Value of the code unit `c` as a digit of the given radix. -/
def digitOfRadix (radix c : Nat) : Option Nat :=
  if 48 ≤ c ∧ c ≤ 57 then (if c - 48 < radix then some (c - 48) else none)
  else if 97 ≤ c ∧ c ≤ 122 then (if c - 87 < radix then some (c - 87) else none)
  else if 65 ≤ c ∧ c ≤ 90 then (if c - 55 < radix then some (c - 55) else none)
  else none

/-- The longest prefix of digits of the given radix, as digit values. -/
def takeDigits (radix : Nat) : JSString → List Nat
  | [] => []
  | c :: rest =>
    match digitOfRadix radix c with
    | some d => d :: takeDigits radix rest
    | none => []

/-- The Number nearest to the natural number `v` (ties to even); `none` is
`Infinity`. -/
def roundNatToDouble (v : Nat) : Option Nat :=
  if v < 2 ^ 53 then some v
  else
    let u := 2 ^ (log2Floor v - 52)
    let q := v / u
    let r := v % u
    let rounded :=
      if 2 * r < u then q * u
      else if u < 2 * r then (q + 1) * u
      else if q % 2 = 0 then q * u else (q + 1) * u
    if rounded < 2 ^ 1024 then some rounded else none

/-- The part of `parseInt` after the sign: a `0x` or `0X` prefix selects radix
16, otherwise the radix is 10; the longest prefix of digits is read; `none` is
`NaN` (no digit) or `Infinity`. -/
def parseUnsigned (s : JSString) : Option Nat :=
  let hex := s.take 2 == [48, 120] || s.take 2 == [48, 88]
  let radix := if hex then 16 else 10
  let digits := takeDigits radix (if hex then s.drop 2 else s)
  if digits = [] then none
  else roundNatToDouble (digits.foldl (fun acc d => acc * radix + d) 0)

/-- The function `parseInt(string)` without a radix argument, as the handlers
call it on the `data-id` attribute: leading white space is skipped, a sign is
read, then the digits up to the first character that is none. `none` is a
result that equals no identifier (`NaN` or an infinity). -/
def parseInt (string : JSString) : Option Int :=
  let s := string.dropWhile isWhiteSpace
  if s.head? = some 45 then (parseUnsigned s.tail).map fun (v : Nat) => -(v : Int)
  else if s.head? = some 43 then (parseUnsigned s.tail).map fun (v : Nat) => (v : Int)
  else (parseUnsigned s).map fun (v : Nat) => (v : Int)

/-! ## Rendered rows -/

/-- What `renderTasks` (app.js:74-112) puts into one list item, as far as the
handlers read it back: the `data-id` attribute and the checkbox state. -/
structure Row where
  dataId : JSString
  checked : Bool
  deriving DecidableEq

/-- The rows `renderTasks` builds: one per task, in order, with the identifier
written into `data-id` (app.js:77) and the checkbox set from `completed`
(app.js:87). -/
def renderTasks (tasksToRender : List Task) : List Row :=
  tasksToRender.map fun task =>
    { dataId := numberToString task.id, checked := task.completed }

/-- The in-memory task array together with the rendered list. -/
structure Page where
  tasks : List Task
  rows : List Row
  deriving DecidableEq

/-- The user activates the checkbox of row `i`: the browser flips its checked
state and dispatches `change`, which runs `toggleTaskComplete` with the parsed
`data-id` of the row and the new checkbox state (app.js:115-117, 169-173).
`none` when there is no such row or the handler throws. -/
def clickCheckbox (p : Page) (i : Nat) : Option Page :=
  match p.rows.get? i with
  | none => none
  | some row =>
    let checked := !row.checked
    (parseInt row.dataId).bind fun taskId =>
      (toggleTaskComplete p.tasks taskId checked).map fun tasks =>
        { tasks := tasks, rows := p.rows.set i { row with checked := checked } }

/-! ## Categories -/

/-- The seed list of app.js:19. -/
def seedCategories : List JSString :=
  [utf16 "Work", utf16 "Personal", utf16 "Shopping", utf16 "Health"]

/-- The handler `addCategory` (app.js:255-263) on the category array; `newCategoryInput` is
the value of the input field. -/
def addCategory (categories : List JSString) (newCategoryInput : JSString) : List JSString :=
  let categoryName := trim newCategoryInput
  if categoryName = [] ∨ categoryName ∈ categories then categories
  else categories ++ [categoryName]

/-! ## Category colours -/

/-- ECMAScript `ToInt32` on an integral Number. -/
def toInt32 (x : Int) : Int :=
  let m := x % 2 ^ 32
  if 2 ^ 31 ≤ m then m - 2 ^ 32 else m

/-- The `<<` operator on an integral Number: both the operand and the result
are taken modulo `2^32` into the signed 32-bit range. -/
def shiftLeft (x : Int) (n : Nat) : Int :=
  toInt32 (toInt32 x * 2 ^ (n % 32))

/-- The function `hashCode` (app.js:319-325). Only the shift wraps to 32 bits; the
subtraction and the addition are Number operations and are not wrapped. -/
def hashCode (str : JSString) : Int :=
  str.foldl (fun (hash : Int) (c : Nat) => (c : Int) + (shiftLeft hash 5 - hash)) 0

/-- The colour table of app.js:313. -/
def colors : List JSString :=
  [utf16 "indigo", utf16 "blue", utf16 "green", utf16 "yellow", utf16 "red",
   utf16 "purple", utf16 "pink"]

/-- The bucket index of app.js:314. -/
def colorIndex (category : JSString) : Nat :=
  (hashCode category).natAbs % colors.length

/-- The function `getCategoryColor` (app.js:312-316); `none` would be `undefined`, an index
outside the table. -/
def getCategoryColor (category : JSString) : Option JSString :=
  colors.get? (colorIndex category)

/-! ## Dates

Time values are integers (milliseconds since 1970-01-01T00:00:00Z); a Date
object is `Option Int`, `none` being the invalid date (time value `NaN`). The
functions below are the abstract operations of ECMA-262 §21.4.1 under their
names there. The host time zone is a fixed offset `tza` (`LocalTZA`, local time
minus UTC, in milliseconds). -/

def msPerDay : Int := 86400000

def Day (t : Int) : Int := t / msPerDay

def TimeWithinDay (t : Int) : Int := t % msPerDay

def DaysInYear (y : Int) : Int :=
  if y % 4 ≠ 0 then 365
  else if y % 100 ≠ 0 then 366
  else if y % 400 ≠ 0 then 365
  else 366

def DayFromYear (y : Int) : Int :=
  365 * (y - 1970) + (y - 1969) / 4 - (y - 1901) / 100 + (y - 1601) / 400

/-- The year containing day number `d`: the largest `y` with
`DayFromYear y ≤ d`, found from the mean year length and one correction step
(see `yearFromDay_spec`). -/
def yearFromDay (d : Int) : Int :=
  let y := 1970 + d * 400 / 146097
  if d < DayFromYear y then y - 1
  else if DayFromYear (y + 1) ≤ d then y + 1
  else y

def YearFromTime (t : Int) : Int := yearFromDay (Day t)

def InLeapYear (t : Int) : Int :=
  if DaysInYear (YearFromTime t) = 365 then 0 else 1

def DayWithinYear (t : Int) : Int := Day t - DayFromYear (YearFromTime t)

/-- The month (0-based) of day `d` of a year, `leap` being 1 in a leap year
and 0 otherwise: the table of `MonthFromTime`. -/
def monthOfYearDay (d leap : Int) : Int :=
  if d < 31 then 0
  else if d < 59 + leap then 1
  else if d < 90 + leap then 2
  else if d < 120 + leap then 3
  else if d < 151 + leap then 4
  else if d < 181 + leap then 5
  else if d < 212 + leap then 6
  else if d < 243 + leap then 7
  else if d < 273 + leap then 8
  else if d < 304 + leap then 9
  else if d < 334 + leap then 10
  else 11

def MonthFromTime (t : Int) : Int :=
  monthOfYearDay (DayWithinYear t) (InLeapYear t)

/-- The day of the month of day `d` of a year, given its month `m`: the table
of `DateFromTime`. -/
def dateOfYearDay (d leap m : Int) : Int :=
  if m = 0 then d + 1
  else if m = 1 then d - 30
  else if m = 2 then d - 58 - leap
  else if m = 3 then d - 89 - leap
  else if m = 4 then d - 119 - leap
  else if m = 5 then d - 150 - leap
  else if m = 6 then d - 180 - leap
  else if m = 7 then d - 211 - leap
  else if m = 8 then d - 242 - leap
  else if m = 9 then d - 272 - leap
  else if m = 10 then d - 303 - leap
  else d - 333 - leap

def DateFromTime (t : Int) : Int :=
  dateOfYearDay (DayWithinYear t) (InLeapYear t) (MonthFromTime t)

/-- Day number, within its year, of the first day of month `mn` (0-based). -/
def monthStart (mn : Int) (leap : Int) : Int :=
  if mn = 0 then 0
  else if mn = 1 then 31
  else if mn = 2 then 59 + leap
  else if mn = 3 then 90 + leap
  else if mn = 4 then 120 + leap
  else if mn = 5 then 151 + leap
  else if mn = 6 then 181 + leap
  else if mn = 7 then 212 + leap
  else if mn = 8 then 243 + leap
  else if mn = 9 then 273 + leap
  else if mn = 10 then 304 + leap
  else 334 + leap

/-- The operation `MakeDay(year, month, date)`: the day number of the first of
the month (month overflow carried into the year) plus `date - 1`. -/
def MakeDay (year month date : Int) : Int :=
  let ym := year + month / 12
  let mn := month % 12
  DayFromYear ym + monthStart mn (if DaysInYear ym = 365 then 0 else 1) + date - 1

def MakeTime (hour min sec ms : Int) : Int :=
  hour * 3600000 + min * 60000 + sec * 1000 + ms

def MakeDate (day time : Int) : Int := day * msPerDay + time

def TimeClip (t : Int) : Option Int :=
  if t.natAbs ≤ 8640000000000000 then some t else none

def LocalTime (tza t : Int) : Int := t + tza

def UTC (tza t : Int) : Int := t - tza

/-- The method `Date.prototype.setHours(hour, min, sec, ms)` as a function of
the time value. -/
def setHours (tza : Int) (tv : Option Int) (hour min sec ms : Int) : Option Int :=
  tv.bind fun tv0 =>
    let t := LocalTime tza tv0
    TimeClip (UTC tza (MakeDate (Day t) (MakeTime hour min sec ms)))

/-- The method `Date.prototype.getDate()`; `none` is `NaN`. -/
def getDate (tza : Int) (tv : Option Int) : Option Int :=
  tv.map fun tv0 => DateFromTime (LocalTime tza tv0)

/-- The method `Date.prototype.setDate(date)`; a `NaN` argument or receiver
gives the invalid date. -/
def setDate (tza : Int) (tv : Option Int) (date : Option Int) : Option Int :=
  tv.bind fun tv0 => date.bind fun dt =>
    let t := LocalTime tza tv0
    TimeClip (UTC tza
      (MakeDate (MakeDay (YearFromTime t) (MonthFromTime t) dt) (TimeWithinDay t)))

/-- Value of a decimal digit code unit. -/
def digitValue (c : Nat) : Option Int :=
  if 48 ≤ c ∧ c ≤ 57 then some ((c : Int) - 48) else none

/-- Number of days of month `month` (1-based) in year `y`. -/
def daysInMonth (y month : Int) : Int :=
  if month = 2 then (if DaysInYear y = 365 then 28 else 29)
  else if month = 4 ∨ month = 6 ∨ month = 9 ∨ month = 11 then 30
  else 31

/-- The constructor call `new Date(s)` for the strings a date input yields:
the date-only form `YYYY-MM-DD` of a calendar date, which ECMA-262 reads as
midnight UTC of that date. Every other string is taken as the invalid date:
the empty string is invalid, and what a browser makes of the rest (a year of
more than four digits, a day past the end of its month) is
implementation-defined. -/
def dateParse (s : JSString) : Option Int :=
  match s with
  | [y1, y2, y3, y4, 45, m1, m2, 45, d1, d2] =>
    (digitValue y1).bind fun a => (digitValue y2).bind fun b =>
    (digitValue y3).bind fun c => (digitValue y4).bind fun d =>
    (digitValue m1).bind fun e => (digitValue m2).bind fun f =>
    (digitValue d1).bind fun g => (digitValue d2).bind fun h =>
      let year := 1000 * a + 100 * b + 10 * c + d
      let month := 10 * e + f
      let date := 10 * g + h
      if 1 ≤ month ∧ month ≤ 12 ∧ 1 ≤ date ∧ date ≤ daysInMonth year month then
        TimeClip (MakeDate (MakeDay year (month - 1) date) 0)
      else none
  | _ => none

/-- Strict equality `===` on two time values: `NaN` equals nothing. -/
def numEq : Option Int → Option Int → Bool
  | some a, some b => decide (a = b)
  | _, _ => false

/-- The comparison `<` on the time values of two Date objects. -/
def numLt : Option Int → Option Int → Bool
  | some a, some b => decide (a < b)
  | _, _ => false

/-- The comparison `<=` on the time values of two Date objects. -/
def numLe : Option Int → Option Int → Bool
  | some a, some b => decide (a ≤ b)
  | _, _ => false

/-! ## Filtering -/

/-- The handler `filterTasks` (app.js:197-232), returning the list handed to
`renderTasks`. `toLowerCase` is the host's `String.prototype.toLowerCase`; `searchInput`,
`filterValue` and `categoryValue` are the values of the three controls; `now`
is the clock reading of `new Date()`, taken once for the whole pass, and `tza`
the local time-zone offset. -/
def filterTasks (toLowerCase : JSString → JSString) (tasks : List Task)
    (searchInput filterValue categoryValue : JSString) (now tza : Int) : List Task :=
  let searchTerm := toLowerCase searchInput
  tasks.filter fun task =>
    let matchesSearch := includes (toLowerCase task.text) searchTerm
    let matchesCategory := categoryValue == utf16 "all" || task.category == categoryValue
    if !matchesSearch || !matchesCategory then false
    else if filterValue == utf16 "all" then true
    else if filterValue == utf16 "completed" then task.completed
    else if filterValue == utf16 "today" || filterValue == utf16 "week" ||
        filterValue == utf16 "overdue" then
      if task.dueDate = [] then false
      else
        let today := setHours tza (some now) 0 0 0 0
        let dueDate := dateParse task.dueDate
        if filterValue == utf16 "today" then numEq dueDate today
        else if filterValue == utf16 "week" then
          let nextWeek := setDate tza today ((getDate tza today).map (· + 7))
          numLe today dueDate && numLe dueDate nextWeek
        else if filterValue == utf16 "overdue" then
          numLt dueDate today && !task.completed
        else true
    else true

/-- ASCII lower-casing, which is what `toLowerCase` does on ASCII text. -/
def toLowerCaseAscii (s : JSString) : JSString :=
  s.map fun c => if 65 ≤ c ∧ c ≤ 90 then c + 32 else c

/-! ## Progress -/

/-- Round to the nearest integer, ties to the even one. -/
def roundHalfEven (x : ℚ) : ℤ :=
  let f := ⌊x⌋
  if 2 * (x - f) < 1 then f
  else if 1 < 2 * (x - f) then f + 1
  else if f % 2 = 0 then f else f + 1

/-- The binary64 value nearest to `x` (53-bit significand, ties to even), for
`x` in the normal range: the result of a Number operation whose exact result
is `x`. -/
def roundToDouble (x : ℚ) : ℚ :=
  if x = 0 then 0
  else
    let ulp : ℚ := 2 ^ (Int.log 2 |x| - 52)
    roundHalfEven (x / ulp) * ulp

/-- The function `Math.round`: the nearest integer, a tie going up. -/
def mathRound (x : ℚ) : ℤ := ⌊x + 1 / 2⌋

/-- The percentage `updateProgress` (app.js:235-246) writes into the progress
bar and its label. -/
def updateProgress (tasks : List Task) : ℤ :=
  if tasks.length = 0 then 0
  else
    let completedCount := (tasks.filter fun task => task.completed).length
    let progress :=
      mathRound (roundToDouble (roundToDouble ((completedCount : ℚ) / (tasks.length : ℚ)) * 100))
    progress

/-! ## Vocabulary of the statements -/

/-- Identifiers of a task sequence, in order. -/
def ids (tasks : List Task) : List Int := tasks.map fun task => task.id

/-- The task `t` with its `completed` field assigned `b`. -/
def withCompleted (t : Task) (b : Bool) : Task := { t with completed := b }

/-- Number of entries of `categories` equal to `label`. -/
def occurrences (label : JSString) (categories : List JSString) : Nat :=
  categories.countP fun c => decide (c = label)

/-- Number of completed tasks, as `updateProgress` counts them. -/
def completedCount (tasks : List Task) : Nat :=
  (tasks.filter fun task => task.completed).length

/-- The percentage computed with the multiplication first,
`Math.round(100 * completedCount / tasks.length)`, in the same Number
arithmetic. This order is not in the source; it is the order in which the
formula of the specification is written. -/
def progressMultiplyFirst (completed total : Nat) : ℤ :=
  mathRound (roundToDouble (roundToDouble (100 * (completed : ℚ)) / (total : ℚ)))

/-- Local calendar date (year, month 1-12, day) at the instant `now`. -/
def localDate (tza now : Int) : Int × Int × Int :=
  (YearFromTime (LocalTime tza now), MonthFromTime (LocalTime tza now) + 1,
    DateFromTime (LocalTime tza now))

/-- Day number of the due date of a task; `none` when it has none. -/
def dueDay (task : Task) : Option Int := (dateParse task.dueDate).map Day

/-- Day number of today's local calendar date. -/
def localDay (tza now : Int) : Int := Day (LocalTime tza now)

/-- The task has a due date and its day number satisfies `p`. -/
def dueDayIs (p : Int → Bool) (task : Task) : Bool :=
  match dueDay task with
  | some k => p k
  | none => false

/-- Length of month `m` (1-based) in a year with leap flag `leap`. -/
def monthLength (m leap : Int) : Int :=
  if m = 2 then 28 + leap
  else if m = 4 ∨ m = 6 ∨ m = 9 ∨ m = 11 then 30
  else 31

/-! ## The identifier round trip -/

theorem digit_not_whiteSpace (c : Nat) (h : 48 ≤ c ∧ c ≤ 57) : isWhiteSpace c = false := by
  have : c = 48 ∨ c = 49 ∨ c = 50 ∨ c = 51 ∨ c = 52 ∨ c = 53 ∨ c = 54 ∨ c = 55 ∨ c = 56 ∨
      c = 57 := by omega
  rcases this with h | h | h | h | h | h | h | h | h | h <;> subst h <;> rfl

theorem decimalDigitsAux_spec (fuel n : Nat) (h : n < fuel) :
    decimalDigitsAux fuel n ≠ [] ∧
    (∀ c ∈ decimalDigitsAux fuel n, 48 ≤ c ∧ c ≤ 57) ∧
    ((decimalDigitsAux fuel n).map (· - 48)).foldl (fun acc d => acc * 10 + d) 0 = n := by
  induction fuel generalizing n with
  | zero => omega
  | succ fuel ih =>
    unfold decimalDigitsAux
    by_cases h10 : n < 10
    · simp only [h10, if_true]
      refine ⟨by simp, ?_, by simp⟩
      intro c hc
      simp only [List.mem_singleton] at hc
      omega
    · simp only [h10, if_false]
      obtain ⟨_, i2, i3⟩ := ih (n / 10) (by omega)
      refine ⟨by simp, ?_, ?_⟩
      · intro c hc
        rcases List.mem_append.1 hc with hc | hc
        · exact i2 c hc
        · simp only [List.mem_singleton] at hc
          omega
      · rw [List.map_append, List.foldl_append, i3]
        simp
        omega

theorem takeDigits_decimal (l : List Nat) (hl : ∀ c ∈ l, 48 ≤ c ∧ c ≤ 57) :
    takeDigits 10 l = l.map (· - 48) := by
  induction l with
  | nil => rfl
  | cons c rest ih =>
    have hc := hl c (List.mem_cons_self _ _)
    have hd : digitOfRadix 10 c = some (c - 48) := by
      unfold digitOfRadix
      rw [if_pos hc, if_pos (by omega)]
    simp only [takeDigits, hd, List.map_cons]
    rw [ih fun x hx => hl x (List.mem_cons_of_mem _ hx)]

theorem parseUnsigned_decimalDigits (n : Nat) (h : n < 2 ^ 53) :
    parseUnsigned (decimalDigits n) = some n := by
  obtain ⟨h1, h2, h3⟩ := decimalDigitsAux_spec (n + 1) n (by omega)
  have hx1 : ((decimalDigits n).take 2 == [48, 120]) = false := by
    unfold decimalDigits
    rcases hl : decimalDigitsAux (n + 1) n with _ | ⟨c, _ | ⟨d, t⟩⟩
    · rfl
    · simp
    · have hd := h2 d (by rw [hl]; simp)
      have : d ≠ 120 := by omega
      simp [this]
  have hx2 : ((decimalDigits n).take 2 == [48, 88]) = false := by
    unfold decimalDigits
    rcases hl : decimalDigitsAux (n + 1) n with _ | ⟨c, _ | ⟨d, t⟩⟩
    · rfl
    · simp
    · have hd := h2 d (by rw [hl]; simp)
      have : d ≠ 88 := by omega
      simp [this]
  have htd : takeDigits 10 (decimalDigits n) = (decimalDigits n).map (· - 48) :=
    takeDigits_decimal _ h2
  have hne : (decimalDigits n).map (· - 48) ≠ [] := by
    intro e
    exact h1 (List.map_eq_nil_iff.1 e)
  unfold parseUnsigned
  simp only [hx1, hx2, Bool.or_false, Bool.false_eq_true, if_false, htd, hne]
  unfold decimalDigits
  rw [h3]
  unfold roundNatToDouble
  rw [if_pos h]

/-- Reading an identifier back from the attribute gives the identifier, for
every integer of magnitude below `2^53`. -/
theorem parseInt_numberToString (x : Int) (h : x.natAbs < 2 ^ 53) :
    parseInt (numberToString x) = some x := by
  obtain ⟨h1, h2, _⟩ := decimalDigitsAux_spec (x.natAbs + 1) x.natAbs (by omega)
  have hu : unsignedToString x.natAbs = decimalDigits x.natAbs := by
    unfold unsignedToString
    rw [if_pos h]
  obtain ⟨c, t, hct⟩ : ∃ c t, decimalDigits x.natAbs = c :: t := by
    unfold decimalDigits
    rcases hl : decimalDigitsAux (x.natAbs + 1) x.natAbs with _ | ⟨c, t⟩
    · exact absurd hl h1
    · exact ⟨c, t, rfl⟩
  have hc : 48 ≤ c ∧ c ≤ 57 := h2 c (by
    have : c ∈ decimalDigits x.natAbs := by rw [hct]; simp
    exact this)
  have hws := digit_not_whiteSpace c hc
  have hp := parseUnsigned_decimalDigits x.natAbs h
  by_cases hneg : x < 0
  · have hstr : numberToString x = 45 :: c :: t := by
      unfold numberToString
      rw [if_pos hneg, hu, hct]
    have hdw : (45 :: c :: t).dropWhile isWhiteSpace = 45 :: c :: t := by
      rw [List.dropWhile_cons_of_neg]
      decide
    unfold parseInt
    simp only [hstr, hdw, List.head?_cons, List.tail_cons, if_true]
    rw [← hct, hp]
    simp only [Option.map_some', Option.some.injEq]
    omega
  · have hstr : numberToString x = c :: t := by
      unfold numberToString
      rw [if_neg hneg, hu, hct]
    have hdw : (c :: t).dropWhile isWhiteSpace = c :: t := by
      rw [List.dropWhile_cons_of_neg]
      simp [hws]
    have n45 : c ≠ 45 := by omega
    have n43 : c ≠ 43 := by omega
    unfold parseInt
    simp only [hstr, hdw, List.head?_cons, Option.some.injEq, n45, n43, if_false]
    rw [← hct, hp]
    simp only [Option.map_some', Option.some.injEq]
    omega
/-! ## Properties of the task store -/

theorem withCompleted_id (t : Task) (b : Bool) : (withCompleted t b).id = t.id := rfl

theorem withCompleted_completed (t : Task) (b : Bool) :
    (withCompleted t b).completed = b := rfl

theorem withCompleted_back (t : Task) (b : Bool) :
    withCompleted (withCompleted t b) t.completed = t := rfl

theorem set_getElem_same (tasks : List Task) (i : Nat) (hi : i < tasks.length) :
    tasks.set i tasks[i] = tasks := by
  induction tasks generalizing i with
  | nil => simp at hi
  | cons t rest ih =>
    cases i with
    | zero => simp
    | succ j =>
      have hj : j < rest.length := by simpa using hi
      simp [ih j hj]

theorem toggleTaskComplete_at (tasks : List Task) (i : Nat) (hi : i < tasks.length)
    (hnd : (ids tasks).Nodup) (checked : Bool) :
    toggleTaskComplete tasks tasks[i].id checked =
      some (tasks.set i (withCompleted tasks[i] checked)) := by
  induction tasks generalizing i with
  | nil => simp at hi
  | cons t rest ih =>
    cases i with
    | zero => simp [toggleTaskComplete, withCompleted]
    | succ j =>
      have hj : j < rest.length := by simpa using hi
      have hnd2 : t.id ∉ ids rest ∧ (ids rest).Nodup := by
        simpa [ids] using hnd
      have hne : t.id ≠ rest[j].id := by
        intro h
        apply hnd2.1
        rw [h]
        exact List.mem_map_of_mem _ (List.getElem_mem hj)
      simp [toggleTaskComplete, hne, ih j hj hnd2.2]

theorem ids_set_completed (tasks : List Task) (i : Nat) (hi : i < tasks.length) (b : Bool) :
    ids (tasks.set i (withCompleted tasks[i] b)) = ids tasks := by
  induction tasks generalizing i with
  | nil => simp at hi
  | cons t rest ih =>
    cases i with
    | zero => simp [ids, withCompleted]
    | succ j =>
      have hj : j < rest.length := by simpa using hi
      have := ih j hj
      simp only [ids] at this
      simp [ids, this]

theorem find_of_nodup (tasks : List Task) (hnd : (ids tasks).Nodup) (t : Task)
    (ht : t ∈ tasks) : (tasks.find? fun task => task.id == t.id) = some t := by
  induction tasks with
  | nil => simp at ht
  | cons a rest ih =>
    have hnd2 : a.id ∉ ids rest ∧ (ids rest).Nodup := by simpa [ids] using hnd
    rcases List.mem_cons.1 ht with h | h
    · subst h; simp
    · have hne : a.id ≠ t.id := by
        intro e
        apply hnd2.1
        rw [e]
        exact List.mem_map_of_mem _ h
      have hb : (a.id == t.id) = false := by simpa using hne
      simp [List.find?, hb, ih hnd2.2 h]

/-- C1, as stated, fails: when the clock reading equals the identifier of a
stored task (a second add within the same millisecond, or a clock set back),
`addTask` appends a task whose identifier is already in the sequence. -/
theorem addTask_identifier_collision :
    ∃ old new : Task,
      addTask [old] 1700000000000 1700000000000 (utf16 "Buy milk") (utf16 "2024-03-10")
        (utf16 "Shopping") = [old, new] ∧ new.id = old.id :=
  ⟨⟨1700000000000, utf16 "Call Bob", [], [], false, 1700000000000⟩,
   ⟨1700000000000, utf16 "Buy milk", utf16 "2024-03-10", utf16 "Shopping", false,
     1700000000000⟩, by decide, rfl⟩

/-- C1 (amended): with empty trimmed text `addTask` leaves the sequence
unchanged; otherwise it appends exactly one task carrying the trimmed text, the
given due date and category, `completed = false` and the clock reading as
identifier. That identifier differs from every stored identifier when the clock
reading is later than all of them, and then pairwise-distinct identifiers stay
pairwise distinct. -/
theorem addTask_spec (tasks : List Task) (now created : Int)
    (taskInput dueDateInput categoryInput : JSString) :
    (trim taskInput = [] →
      addTask tasks now created taskInput dueDateInput categoryInput = tasks) ∧
    (trim taskInput ≠ [] →
      ∃ newTask : Task,
        addTask tasks now created taskInput dueDateInput categoryInput = tasks ++ [newTask] ∧
        (addTask tasks now created taskInput dueDateInput categoryInput).length
          = tasks.length + 1 ∧
        newTask.text = trim taskInput ∧ newTask.dueDate = dueDateInput ∧
        newTask.category = categoryInput ∧ newTask.completed = false ∧
        newTask.id = now ∧
        ((∀ t ∈ tasks, t.id < now) →
          (∀ t ∈ tasks, newTask.id ≠ t.id) ∧
          ((ids tasks).Nodup →
            (ids (addTask tasks now created taskInput dueDateInput categoryInput)).Nodup))) := by
  constructor
  · intro h
    simp [addTask, h]
  · intro h
    refine ⟨⟨now, trim taskInput, dueDateInput, categoryInput, false, created⟩, ?_, ?_,
      rfl, rfl, rfl, rfl, rfl, ?_⟩
    · simp [addTask, h]
    · simp [addTask, h]
    · intro hlt
      have hne : ∀ t ∈ tasks, now ≠ t.id := fun t ht => (ne_of_lt (hlt t ht)).symm
      refine ⟨hne, fun hnd => ?_⟩
      simp only [addTask, h, if_false, ids, List.map_append, List.map_cons, List.map_nil]
      refine List.Nodup.append hnd (List.nodup_singleton _) ?_
      intro x hx hx2
      simp only [List.mem_singleton] at hx2
      subst hx2
      obtain ⟨t, ht, rfl⟩ := List.mem_map.1 hx
      exact hne t ht rfl

/-- The amended C1 at a concrete store and input. -/
theorem addTask_spec_witness :
    trim (utf16 " Buy milk ") ≠ [] ∧
    (∀ t ∈ [(⟨1700000000000, utf16 "Call Bob", [], [], false, 1700000000000⟩ : Task)],
      t.id < 1700000000001) ∧
    ∃ newTask : Task,
      addTask [⟨1700000000000, utf16 "Call Bob", [], [], false, 1700000000000⟩]
        1700000000001 1700000000002 (utf16 " Buy milk ") (utf16 "2024-03-10")
        (utf16 "Shopping")
        = [⟨1700000000000, utf16 "Call Bob", [], [], false, 1700000000000⟩] ++ [newTask] ∧
      newTask.text = utf16 "Buy milk" ∧ newTask.id ≠ 1700000000000 := by
  have hne : trim (utf16 " Buy milk ") ≠ [] := by decide
  have hlt : ∀ t ∈ [(⟨1700000000000, utf16 "Call Bob", [], [], false, 1700000000000⟩ : Task)],
      t.id < 1700000000001 := by decide
  obtain ⟨newTask, h1, _, h3, _, _, _, _, h8⟩ :=
    (addTask_spec [⟨1700000000000, utf16 "Call Bob", [], [], false, 1700000000000⟩]
      1700000000001 1700000000002 (utf16 " Buy milk ") (utf16 "2024-03-10")
      (utf16 "Shopping")).2 hne
  refine ⟨hne, hlt, newTask, h1, ?_, ?_⟩
  · rw [h3]; decide
  · exact (h8 hlt).1 _ (List.mem_singleton.2 rfl)

/-- C2, as stated, fails: when two stored tasks carry the same identifier,
deleting it removes both, so the length drops by two. -/
theorem deleteTask_removes_duplicates :
    (∃ t ∈ [(⟨1700000000000, utf16 "a", [], [], false, 1700000000000⟩ : Task),
        ⟨1700000000000, utf16 "b", [], [], false, 1700000000000⟩],
      t.id = 1700000000000) ∧
    deleteTask
      [⟨1700000000000, utf16 "a", [], [], false, 1700000000000⟩,
       ⟨1700000000000, utf16 "b", [], [], false, 1700000000000⟩] 1700000000000 = [] ∧
    (deleteTask
      [⟨1700000000000, utf16 "a", [], [], false, 1700000000000⟩,
       ⟨1700000000000, utf16 "b", [], [], false, 1700000000000⟩] 1700000000000).length + 1
      ≠ [(⟨1700000000000, utf16 "a", [], [], false, 1700000000000⟩ : Task),
          ⟨1700000000000, utf16 "b", [], [], false, 1700000000000⟩].length := by
  decide

/-- C2 (amended): `deleteTask` leaves the sequence unchanged when no task has
the identifier. In general the result is the sequence without the entries that
carry the identifier: it is a subsequence (order kept), it contains no entry
with the identifier, every entry with another identifier occurs in it as often
as before, the length drops by the number of entries with the identifier, and
these properties single the result out. When the identifiers of the sequence
are pairwise distinct and one task has the identifier, exactly that one entry
is removed and the length drops by exactly one. -/
theorem deleteTask_spec (tasks : List Task) (taskId : Int) :
    ((∀ t ∈ tasks, t.id ≠ taskId) → deleteTask tasks taskId = tasks) ∧
    (deleteTask tasks taskId).Sublist tasks ∧
    (∀ t, t ∈ deleteTask tasks taskId ↔ t ∈ tasks ∧ t.id ≠ taskId) ∧
    (∀ t : Task, t.id ≠ taskId → (deleteTask tasks taskId).count t = tasks.count t) ∧
    (deleteTask tasks taskId).length + (tasks.countP fun t => decide (t.id = taskId))
      = tasks.length ∧
    (∀ kept : List Task, kept.Sublist tasks → (∀ t ∈ kept, t.id ≠ taskId) →
      (∀ t : Task, t.id ≠ taskId → kept.count t = tasks.count t) →
      kept = deleteTask tasks taskId) ∧
    ((ids tasks).Nodup → (∃ t ∈ tasks, t.id = taskId) →
      ∃ before t after, tasks = before ++ t :: after ∧ t.id = taskId ∧
        deleteTask tasks taskId = before ++ after ∧
        (deleteTask tasks taskId).length + 1 = tasks.length) := by
  have hcount : ∀ t : Task, t.id ≠ taskId →
      (deleteTask tasks taskId).count t = tasks.count t := by
    intro t ht
    unfold deleteTask
    rw [List.count_filter]
    simpa using ht
  have hmem : ∀ t, t ∈ deleteTask tasks taskId ↔ t ∈ tasks ∧ t.id ≠ taskId := by
    intro t
    simp [deleteTask]
  refine ⟨?_, ?_, hmem, hcount, ?_, ?_, ?_⟩
  · intro h
    simp only [deleteTask]
    rw [List.filter_eq_self]
    intro t ht
    simpa using h t ht
  · exact List.filter_sublist _
  · unfold deleteTask
    have h := List.length_eq_countP_add_countP (fun t : Task => t.id != taskId) tasks
    rw [List.countP_eq_length_filter] at h
    have e : List.countP (fun a => ¬(fun t : Task => t.id != taskId) a = true) tasks
        = List.countP (fun t => decide (t.id = taskId)) tasks := by
      apply List.countP_congr
      intro t _
      simp
    rw [e] at h
    omega
  · intro kept hsub hids hk
    have h1 : kept.Sublist (deleteTask tasks taskId) := by
      have := hsub.filter (fun task : Task => task.id != taskId)
      have hself : kept.filter (fun task : Task => task.id != taskId) = kept := by
        rw [List.filter_eq_self]
        intro t ht
        simpa using hids t ht
      rw [hself] at this
      exact this
    have h2 : kept.Perm (deleteTask tasks taskId) := by
      rw [List.perm_iff_count]
      intro t
      by_cases ht : t.id = taskId
      · have a1 : t ∉ kept := fun hm => hids t hm ht
        have a2 : t ∉ deleteTask tasks taskId := fun hm => ((hmem t).1 hm).2 ht
        rw [List.count_eq_zero_of_not_mem a1, List.count_eq_zero_of_not_mem a2]
      · rw [hk t ht, hcount t ht]
    exact h1.eq_of_length h2.length_eq
  · intro hnd ⟨t, ht, hid⟩
    obtain ⟨before, after, rfl⟩ := List.append_of_mem ht
    have hnd2 : (ids before ++ t.id :: ids after).Nodup := by simpa [ids] using hnd
    have hb : ∀ x ∈ before, x.id ≠ taskId := by
      intro x hx e
      have h1 := (List.nodup_append.1 hnd2).2.2
      exact h1 (List.mem_map_of_mem (fun task : Task => task.id) hx)
        (by show x.id ∈ t.id :: ids after
            rw [e, ← hid]; exact List.mem_cons_self _ _)
    have ha : ∀ x ∈ after, x.id ≠ taskId := by
      intro x hx e
      have h1 := (List.nodup_cons.1 (List.nodup_append.1 hnd2).2.1).1
      apply h1
      rw [hid, ← e]
      exact List.mem_map_of_mem (fun task : Task => task.id) hx
    have hfb : before.filter (fun task => task.id != taskId) = before := by
      rw [List.filter_eq_self]; intro x hx; simpa using hb x hx
    have hfa : after.filter (fun task => task.id != taskId) = after := by
      rw [List.filter_eq_self]; intro x hx; simpa using ha x hx
    have hdel : deleteTask (before ++ t :: after) taskId = before ++ after := by
      simp only [deleteTask, List.filter_append, List.filter_cons, hfb, hfa]
      simp [hid]
    refine ⟨before, t, after, rfl, hid, hdel, ?_⟩
    rw [hdel]
    simp
    omega

/-- The amended C2 at two concrete stores: deleting the middle one of three
tasks with distinct identifiers, and deleting an identifier from a store that
holds another task twice. -/
theorem deleteTask_spec_witness :
    (ids [(⟨1, utf16 "a", [], [], false, 1⟩ : Task), ⟨2, utf16 "b", [], [], true, 2⟩,
      ⟨3, utf16 "c", [], [], false, 3⟩]).Nodup ∧
    (∃ t ∈ [(⟨1, utf16 "a", [], [], false, 1⟩ : Task), ⟨2, utf16 "b", [], [], true, 2⟩,
      ⟨3, utf16 "c", [], [], false, 3⟩], t.id = 2) ∧
    (deleteTask [⟨1, utf16 "a", [], [], false, 1⟩, ⟨2, utf16 "b", [], [], true, 2⟩,
      ⟨3, utf16 "c", [], [], false, 3⟩] 2).length + 1 = 3 ∧
    (deleteTask [⟨1, utf16 "a", [], [], false, 1⟩, ⟨1, utf16 "b", [], [], false, 1⟩,
      ⟨2, utf16 "c", [], [], false, 2⟩, ⟨2, utf16 "c", [], [], false, 2⟩] 1).count
        ⟨2, utf16 "c", [], [], false, 2⟩ = 2 := by
  have hnd : (ids [(⟨1, utf16 "a", [], [], false, 1⟩ : Task), ⟨2, utf16 "b", [], [], true, 2⟩,
      ⟨3, utf16 "c", [], [], false, 3⟩]).Nodup := by decide
  have hex : ∃ t ∈ [(⟨1, utf16 "a", [], [], false, 1⟩ : Task), ⟨2, utf16 "b", [], [], true, 2⟩,
      ⟨3, utf16 "c", [], [], false, 3⟩], t.id = 2 := by decide
  obtain ⟨_, _, _, _, _, _, hlen⟩ := (deleteTask_spec _ 2).2.2.2.2.2.2 hnd hex
  have hcount := (deleteTask_spec
    [⟨1, utf16 "a", [], [], false, 1⟩, ⟨1, utf16 "b", [], [], false, 1⟩,
      ⟨2, utf16 "c", [], [], false, 2⟩, ⟨2, utf16 "c", [], [], false, 2⟩] 1).2.2.2.1
    ⟨2, utf16 "c", [], [], false, 2⟩ (by decide)
  refine ⟨hnd, hex, hlen, ?_⟩
  rw [hcount]
  decide

theorem set_of_get_some {α : Type} (l : List α) (i : Nat) (a : α) (h : l.get? i = some a) :
    l.set i a = l := by
  induction l generalizing i with
  | nil => simp
  | cons x rest ih =>
    cases i with
    | zero =>
      simp only [List.get?_cons_zero, Option.some.injEq] at h
      simp [h]
    | succ k =>
      simp only [List.get?_cons_succ] at h
      simp [ih k h]

/-- C3, as stated, fails: when two stored tasks carry the same identifier, the
checkbox of the second row drives the first task (the one `tasks.find`
returns). The first click on that checkbox flips no flag, and after the second
click the first task is completed although it was not, so the sequence is not
the original one. -/
theorem clickCheckbox_twice_duplicate_ids :
    ∃ p1 p2 : Page,
      clickCheckbox
        ⟨[⟨1700000000000, utf16 "a", [], [], false, 1700000000000⟩,
          ⟨1700000000000, utf16 "b", [], [], true, 1700000000000⟩],
         renderTasks
          [⟨1700000000000, utf16 "a", [], [], false, 1700000000000⟩,
           ⟨1700000000000, utf16 "b", [], [], true, 1700000000000⟩]⟩ 1
        = some p1 ∧
      clickCheckbox p1 1 = some p2 ∧
      p1.tasks = [⟨1700000000000, utf16 "a", [], [], false, 1700000000000⟩,
                  ⟨1700000000000, utf16 "b", [], [], true, 1700000000000⟩] ∧
      p2.tasks = [⟨1700000000000, utf16 "a", [], [], true, 1700000000000⟩,
                  ⟨1700000000000, utf16 "b", [], [], true, 1700000000000⟩] ∧
      p2.tasks ≠ [⟨1700000000000, utf16 "a", [], [], false, 1700000000000⟩,
                  ⟨1700000000000, utf16 "b", [], [], true, 1700000000000⟩] :=
  ⟨⟨[⟨1700000000000, utf16 "a", [], [], false, 1700000000000⟩,
      ⟨1700000000000, utf16 "b", [], [], true, 1700000000000⟩],
     [⟨utf16 "1700000000000", false⟩, ⟨utf16 "1700000000000", false⟩]⟩,
   ⟨[⟨1700000000000, utf16 "a", [], [], true, 1700000000000⟩,
      ⟨1700000000000, utf16 "b", [], [], true, 1700000000000⟩],
     [⟨utf16 "1700000000000", false⟩, ⟨utf16 "1700000000000", true⟩]⟩,
   by decide, by decide, rfl, rfl, by decide⟩

/-- Pairwise-distinct identifiers are not enough for C3 either: an identifier
of `10^21` is written into the attribute as `1e+21`, which `parseInt` reads as
1, so the checkbox of the second task completes the first. -/
theorem clickCheckbox_large_identifier :
    (ids [(⟨1, utf16 "one", [], [], false, 1⟩ : Task),
      ⟨10 ^ 21, utf16 "big", [], [], false, 2⟩]).Nodup ∧
    renderTasks [⟨1, utf16 "one", [], [], false, 1⟩, ⟨10 ^ 21, utf16 "big", [], [], false, 2⟩]
      = [⟨utf16 "1", false⟩, ⟨utf16 "1e+21", false⟩] ∧
    clickCheckbox
      ⟨[⟨1, utf16 "one", [], [], false, 1⟩, ⟨10 ^ 21, utf16 "big", [], [], false, 2⟩],
       renderTasks
        [⟨1, utf16 "one", [], [], false, 1⟩, ⟨10 ^ 21, utf16 "big", [], [], false, 2⟩]⟩ 1
      = some
          ⟨[⟨1, utf16 "one", [], [], true, 1⟩, ⟨10 ^ 21, utf16 "big", [], [], false, 2⟩],
           [⟨utf16 "1", false⟩, ⟨utf16 "1e+21", true⟩]⟩ := by
  decide

/-- C3 (amended): let the identifiers of the task sequence be pairwise distinct
and of magnitude below `2^53`, and let `shown` be the list that was rendered
(the whole sequence, or what a filter left of it). A click on the checkbox of a
row whose task is the `j`-th of the sequence flips the `completed` flag of
that task and changes nothing else; a second click on the same checkbox
restores the original task sequence and the original rows. -/
theorem clickCheckbox_twice (tasks shown : List Task) (i j : Nat)
    (hi : i < shown.length) (hj : j < tasks.length) (hrow : shown[i] = tasks[j])
    (hnd : (ids tasks).Nodup) (hsafe : ∀ t ∈ tasks, t.id.natAbs < 2 ^ 53) :
    ∃ p1 : Page,
      clickCheckbox ⟨tasks, renderTasks shown⟩ i = some p1 ∧
      p1.tasks = tasks.set j { tasks[j] with completed := !tasks[j].completed } ∧
      clickCheckbox p1 i = some ⟨tasks, renderTasks shown⟩ := by
  have hparse : parseInt (numberToString tasks[j].id) = some tasks[j].id :=
    parseInt_numberToString _ (hsafe _ (List.getElem_mem hj))
  have hlen : i < (renderTasks shown).length := by simpa [renderTasks] using hi
  have hget : (renderTasks shown).get? i
      = some { dataId := numberToString tasks[j].id, checked := tasks[j].completed } := by
    simp [renderTasks, List.getElem?_eq_getElem hi, hrow]
  have hlen1 : j < (tasks.set j (withCompleted tasks[j] (!tasks[j].completed))).length := by
    simpa using hj
  have hget1 : (tasks.set j (withCompleted tasks[j] (!tasks[j].completed)))[j]
      = withCompleted tasks[j] (!tasks[j].completed) := by simp
  have hids1 := ids_set_completed tasks j hj (!tasks[j].completed)
  have hstep1 : clickCheckbox ⟨tasks, renderTasks shown⟩ i
      = some ⟨tasks.set j (withCompleted tasks[j] (!tasks[j].completed)),
          (renderTasks shown).set i
            { dataId := numberToString tasks[j].id, checked := !tasks[j].completed }⟩ := by
    simp only [clickCheckbox, hget, hparse, Option.some_bind]
    rw [toggleTaskComplete_at tasks j hj hnd]
    rfl
  have hrow1 : ((renderTasks shown).set i
      { dataId := numberToString tasks[j].id, checked := !tasks[j].completed }).get? i
      = some { dataId := numberToString tasks[j].id, checked := !tasks[j].completed } := by
    rw [List.get?_eq_getElem?, List.getElem?_set_self hlen]
  have htog : toggleTaskComplete (tasks.set j (withCompleted tasks[j] (!tasks[j].completed)))
      tasks[j].id tasks[j].completed = some tasks := by
    have h := toggleTaskComplete_at _ j hlen1 (by rw [hids1]; exact hnd) tasks[j].completed
    rw [hget1, withCompleted_id, withCompleted_back, List.set_set,
      set_getElem_same tasks j hj] at h
    exact h
  refine ⟨_, hstep1, rfl, ?_⟩
  simp only [clickCheckbox, hrow1, hparse, Option.some_bind, Bool.not_not, htog,
    Option.map_some', List.set_set]
  rw [set_of_get_some _ _ _ hget]

/-- The amended C3 after a filtered render: the second of two tasks is the only
row shown, and its checkbox is clicked twice. -/
theorem clickCheckbox_twice_witness :
    (ids [(⟨1, utf16 "a", [], [], false, 1⟩ : Task), ⟨2, utf16 "b", [], [], true, 2⟩]).Nodup ∧
    (∀ t ∈ [(⟨1, utf16 "a", [], [], false, 1⟩ : Task), ⟨2, utf16 "b", [], [], true, 2⟩],
      t.id.natAbs < 2 ^ 53) ∧
    ∃ p1 : Page,
      clickCheckbox
        ⟨[⟨1, utf16 "a", [], [], false, 1⟩, ⟨2, utf16 "b", [], [], true, 2⟩],
         renderTasks [⟨2, utf16 "b", [], [], true, 2⟩]⟩ 0
        = some p1 ∧
      p1.tasks = [⟨1, utf16 "a", [], [], false, 1⟩, ⟨2, utf16 "b", [], [], false, 2⟩] ∧
      clickCheckbox p1 0
        = some ⟨[⟨1, utf16 "a", [], [], false, 1⟩, ⟨2, utf16 "b", [], [], true, 2⟩],
           renderTasks [⟨2, utf16 "b", [], [], true, 2⟩]⟩ := by
  have hnd : (ids [(⟨1, utf16 "a", [], [], false, 1⟩ : Task),
      ⟨2, utf16 "b", [], [], true, 2⟩]).Nodup := by decide
  have hsafe : ∀ t ∈ [(⟨1, utf16 "a", [], [], false, 1⟩ : Task),
      ⟨2, utf16 "b", [], [], true, 2⟩], t.id.natAbs < 2 ^ 53 := by decide
  obtain ⟨p1, h1, h2, h3⟩ :=
    clickCheckbox_twice [⟨1, utf16 "a", [], [], false, 1⟩, ⟨2, utf16 "b", [], [], true, 2⟩]
      [⟨2, utf16 "b", [], [], true, 2⟩] 0 1 (by decide) (by decide) rfl hnd hsafe
  exact ⟨hnd, hsafe, p1, h1, h2, h3⟩

theorem find_id (tasks : List Task) (taskId : Int) (t : Task)
    (h : (tasks.find? fun task => task.id == taskId) = some t) : t.id = taskId := by
  have := List.find?_some h
  simpa using this

/-- C4: when the identifiers of the sequence are pairwise distinct and the
dragged list carries a permutation of them, the reorder handler leaves no
undefined entry and the new sequence is a permutation of the old one whose
`i`-th task is the task carrying the `i`-th supplied identifier. -/
theorem onEnd_perm (tasks : List Task) (dataIds : List Int)
    (hnd : (ids tasks).Nodup) (hperm : dataIds.Perm (ids tasks)) :
    ∃ reordered : List Task,
      onEnd tasks dataIds = reordered.map some ∧
      reordered.Perm tasks ∧
      ids reordered = dataIds ∧
      reordered.length = tasks.length := by
  have hmap : (onEnd tasks dataIds).Perm (tasks.map some) := by
    have h1 := hperm.map fun taskId => tasks.find? fun task => task.id == taskId
    have h2 : (ids tasks).map (fun taskId => tasks.find? fun task => task.id == taskId)
        = tasks.map some := by
      simp only [ids, List.map_map]
      apply List.map_congr_left
      intro t ht
      simpa using find_of_nodup tasks hnd t ht
    rw [h2] at h1
    exact h1
  have hall : ∀ d ∈ dataIds, ∃ t, (tasks.find? fun task => task.id == d) = some t := by
    intro d hd
    have hm : (tasks.find? fun task => task.id == d) ∈ onEnd tasks dataIds :=
      List.mem_map_of_mem _ hd
    obtain ⟨t, _, ht⟩ := List.mem_map.1 (hmap.subset hm)
    exact ⟨t, ht.symm⟩
  have hsome : ∀ l : List Int,
      (∀ d ∈ l, ∃ t, (tasks.find? fun task => task.id == d) = some t) →
      onEnd tasks l = (l.filterMap fun d => tasks.find? fun task => task.id == d).map some ∧
      ids (l.filterMap fun d => tasks.find? fun task => task.id == d) = l := by
    intro l
    induction l with
    | nil => intro _; simp [onEnd, ids]
    | cons d rest ih =>
      intro h
      obtain ⟨t, ht⟩ := h d (List.mem_cons_self _ _)
      obtain ⟨ih1, ih2⟩ := ih fun x hx => h x (List.mem_cons_of_mem _ hx)
      have hid := find_id tasks d t ht
      simp only [onEnd] at ih1
      simp only [ids] at ih2
      constructor
      · simp [onEnd, List.filterMap_cons, ht, ih1]
      · simp [ids, List.filterMap_cons, ht, hid, ih2]
  obtain ⟨h1, h2⟩ := hsome dataIds hall
  have hp : (dataIds.filterMap fun d => tasks.find? fun task => task.id == d).Perm tasks := by
    have h3 := hmap.filterMap id
    rw [h1] at h3
    simpa [List.filterMap_map] using h3
  exact ⟨_, h1, hp, h2, hp.length_eq⟩

/-- C4 at a concrete drag: the last of three tasks is moved to the front. -/
theorem onEnd_perm_witness :
    (ids [(⟨1, utf16 "a", [], [], false, 1⟩ : Task), ⟨2, utf16 "b", [], [], true, 2⟩,
      ⟨3, utf16 "c", [], [], false, 3⟩]).Nodup ∧
    [3, 1, 2].Perm (ids [(⟨1, utf16 "a", [], [], false, 1⟩ : Task),
      ⟨2, utf16 "b", [], [], true, 2⟩, ⟨3, utf16 "c", [], [], false, 3⟩]) ∧
    ∃ reordered : List Task,
      onEnd [⟨1, utf16 "a", [], [], false, 1⟩, ⟨2, utf16 "b", [], [], true, 2⟩,
        ⟨3, utf16 "c", [], [], false, 3⟩] [3, 1, 2] = reordered.map some ∧
      reordered.Perm [⟨1, utf16 "a", [], [], false, 1⟩, ⟨2, utf16 "b", [], [], true, 2⟩,
        ⟨3, utf16 "c", [], [], false, 3⟩] ∧
      ids reordered = [3, 1, 2] := by
  have hnd : (ids [(⟨1, utf16 "a", [], [], false, 1⟩ : Task), ⟨2, utf16 "b", [], [], true, 2⟩,
      ⟨3, utf16 "c", [], [], false, 3⟩]).Nodup := by decide
  have hperm : [3, 1, 2].Perm (ids [(⟨1, utf16 "a", [], [], false, 1⟩ : Task),
      ⟨2, utf16 "b", [], [], true, 2⟩, ⟨3, utf16 "c", [], [], false, 3⟩]) := by decide
  obtain ⟨reordered, h1, h2, h3, _⟩ := onEnd_perm _ _ hnd hperm
  exact ⟨hnd, hperm, reordered, h1, h2, h3⟩

/-! ## Properties of the category store -/

theorem occurrences_eq_one (label : JSString) (categories : List JSString)
    (hnd : categories.Nodup) (hmem : label ∈ categories) :
    occurrences label categories = 1 := by
  induction categories with
  | nil => simp at hmem
  | cons a rest ih =>
    obtain ⟨hnot, hnd2⟩ := List.nodup_cons.1 hnd
    by_cases e : a = label
    · subst e
      have hz : List.countP (fun c => decide (c = a)) rest = 0 := by
        rw [List.countP_eq_zero]
        intro x hx
        simp only [decide_eq_true_eq]
        intro e2
        exact hnot (e2 ▸ hx)
      simp [occurrences, List.countP_cons, hz]
    · have hm : label ∈ rest := by
        rcases List.mem_cons.1 hmem with h | h
        · exact absurd h.symm e
        · exact h
      have := ih hnd2 hm
      simp only [occurrences] at this
      simp [occurrences, List.countP_cons, e, this]

theorem addCategory_nodup (categories : List JSString) (input : JSString)
    (h : categories.Nodup) : (addCategory categories input).Nodup := by
  unfold addCategory
  by_cases hc : trim input = [] ∨ trim input ∈ categories
  · simp only [hc, if_true]
    exact h
  · simp only [hc, if_false]
    have hnot : trim input ∉ categories := fun hm => hc (Or.inr hm)
    refine List.Nodup.append h (List.nodup_singleton _) ?_
    intro x hx hx2
    simp only [List.mem_singleton] at hx2
    subst hx2
    exact hnot hx

theorem foldl_addCategory_nodup (inputs : List JSString) (categories : List JSString)
    (h : categories.Nodup) : (inputs.foldl addCategory categories).Nodup := by
  induction inputs generalizing categories with
  | nil => simpa using h
  | cons a rest ih =>
    simp only [List.foldl_cons]
    exact ih _ (addCategory_nodup categories a h)

/-- C9: from a duplicate-free category list (the seed list is one) every finite
run of `addCategory` leaves each label present exactly once; a name that is
empty after trimming or already present leaves the list unchanged, any other
name is appended, trimmed, once at the end; and adding "Work", "Work",
"Shopping" to the seed list leaves "Work" in it exactly once. -/
theorem addCategory_spec (categories : List JSString) (inputs : List JSString)
    (input : JSString) (h : categories.Nodup) :
    (inputs.foldl addCategory categories).Nodup ∧
    (∀ label ∈ inputs.foldl addCategory categories,
      occurrences label (inputs.foldl addCategory categories) = 1) ∧
    seedCategories.Nodup ∧
    (inputs.foldl addCategory seedCategories).Nodup ∧
    (trim input = [] ∨ trim input ∈ categories → addCategory categories input = categories) ∧
    (¬ (trim input = [] ∨ trim input ∈ categories) →
      addCategory categories input = categories ++ [trim input]) ∧
    occurrences (utf16 "Work")
      ([utf16 "Work", utf16 "Work", utf16 "Shopping"].foldl addCategory seedCategories) = 1 := by
  have hseed : seedCategories.Nodup := by decide
  refine ⟨foldl_addCategory_nodup inputs categories h, ?_, hseed,
    foldl_addCategory_nodup inputs seedCategories hseed, ?_, ?_, by decide⟩
  · intro label hl
    exact occurrences_eq_one _ _ (foldl_addCategory_nodup inputs categories h) hl
  · intro hc
    simp [addCategory, hc]
  · intro hc
    simp [addCategory, hc]

/-- C9 at a concrete run: a padded new label, a duplicate and a blank input. -/
theorem addCategory_spec_witness :
    seedCategories.Nodup ∧
    [utf16 " Errands ", utf16 "Work", utf16 "  "].foldl addCategory seedCategories
      = seedCategories ++ [utf16 "Errands"] ∧
    ([utf16 " Errands ", utf16 "Work", utf16 "  "].foldl addCategory seedCategories).Nodup := by
  have hseed : seedCategories.Nodup := by decide
  exact ⟨hseed, by decide,
    (addCategory_spec seedCategories [utf16 " Errands ", utf16 "Work", utf16 "  "] []
      hseed).1⟩

/-! ## Properties of the colour hash -/

theorem toInt32_bounds (x : Int) : -(2 ^ 31) ≤ toInt32 x ∧ toInt32 x < 2 ^ 31 := by
  have h1 : 0 ≤ x % 2 ^ 32 := Int.emod_nonneg _ (by norm_num)
  have h2 : x % 2 ^ 32 < 2 ^ 32 := Int.emod_lt_of_pos _ (by norm_num)
  simp only [toInt32]
  split_ifs <;> constructor <;> omega

/-- While the running hash stays below `2^53` in magnitude every Number in
`hashCode` is an exactly represented integer; it does for every string of up
to `2^21` code units, since each step adds at most `2^31 + 65535` to the
magnitude. -/
theorem hashCode_abs_le (str : JSString) (hstr : ∀ c ∈ str, c < 65536) :
    |hashCode str| ≤ (str.length : Int) * (2 ^ 31 + 65535) := by
  have key : ∀ (l : JSString) (h0 : Int), (∀ c ∈ l, c < 65536) →
      |l.foldl (fun (hash : Int) (c : Nat) => (c : Int) + (shiftLeft hash 5 - hash)) h0|
        ≤ |h0| + (l.length : Int) * (2 ^ 31 + 65535) := by
    intro l
    induction l with
    | nil => intro h0 _; simp
    | cons c rest ih =>
      intro h0 hl
      have hc : c < 65536 := hl c (List.mem_cons_self _ _)
      have hrest := ih ((c : Int) + (shiftLeft h0 5 - h0))
        fun x hx => hl x (List.mem_cons_of_mem _ hx)
      have hb := toInt32_bounds (toInt32 h0 * 2 ^ (5 % 32))
      have hstep : |(c : Int) + (shiftLeft h0 5 - h0)| ≤ |h0| + (2 ^ 31 + 65535) := by
        have e1 := neg_abs_le h0
        have e2 := le_abs_self h0
        have hc2 : (c : Int) < 65536 := by exact_mod_cast hc
        have hc3 : (0 : Int) ≤ c := Int.natCast_nonneg c
        unfold shiftLeft
        rw [abs_le]
        constructor <;> linarith [hb.1, hb.2]
      have hlen : ((c :: rest).length : Int) = (rest.length : Int) + 1 := by
        simp
      rw [List.foldl_cons, hlen]
      linarith
  have := key str 0 hstr
  simpa [hashCode] using this

/-- C10: for every category name the bucket index is below seven and
`getCategoryColor` returns an entry of the colour table, never `undefined`. The
index and the colour are functions of the name alone. -/
theorem getCategoryColor_spec (category : JSString) :
    colorIndex category < 7 ∧
    colorIndex category = (hashCode category).natAbs % 7 ∧
    ∃ c ∈ colors, getCategoryColor category = some c ∧
      colors.get? (colorIndex category) = some c := by
  have hlen : colors.length = 7 := by decide
  have hidx : colorIndex category < colors.length := by
    unfold colorIndex
    exact Nat.mod_lt _ (by rw [hlen]; norm_num)
  refine ⟨by rw [← hlen]; exact hidx, by simp [colorIndex, hlen], colors[colorIndex category],
    List.getElem_mem hidx, ?_, ?_⟩
  · simp [getCategoryColor, List.getElem?_eq_getElem hidx]
  · simp [List.getElem?_eq_getElem hidx]

/-! ## Calendar arithmetic -/

theorem timeClip_eq (t : Int) (h1 : -8640000000000000 ≤ t) (h2 : t ≤ 8640000000000000) :
    TimeClip t = some t := by
  unfold TimeClip
  rw [if_pos]
  omega

theorem timeClip_some (t d : Int) (h : TimeClip t = some d) : d = t := by
  unfold TimeClip at h
  split_ifs at h
  exact (Option.some.inj h).symm

theorem monthOfYearDay_cases (d leap : Int) :
    (d < 31 ∧ monthOfYearDay d leap = 0) ∨
    (31 ≤ d ∧ d < 59 + leap ∧ monthOfYearDay d leap = 1) ∨
    (59 + leap ≤ d ∧ d < 90 + leap ∧ monthOfYearDay d leap = 2) ∨
    (90 + leap ≤ d ∧ d < 120 + leap ∧ monthOfYearDay d leap = 3) ∨
    (120 + leap ≤ d ∧ d < 151 + leap ∧ monthOfYearDay d leap = 4) ∨
    (151 + leap ≤ d ∧ d < 181 + leap ∧ monthOfYearDay d leap = 5) ∨
    (181 + leap ≤ d ∧ d < 212 + leap ∧ monthOfYearDay d leap = 6) ∨
    (212 + leap ≤ d ∧ d < 243 + leap ∧ monthOfYearDay d leap = 7) ∨
    (243 + leap ≤ d ∧ d < 273 + leap ∧ monthOfYearDay d leap = 8) ∨
    (273 + leap ≤ d ∧ d < 304 + leap ∧ monthOfYearDay d leap = 9) ∨
    (304 + leap ≤ d ∧ d < 334 + leap ∧ monthOfYearDay d leap = 10) ∨
    (334 + leap ≤ d ∧ monthOfYearDay d leap = 11) := by
  by_cases h0 : d < 31
  · have e : monthOfYearDay d leap = 0 := by
      unfold monthOfYearDay
      rw [if_pos h0]
    exact Or.inl ⟨h0, e⟩
  by_cases h1 : d < 59 + leap
  · have e : monthOfYearDay d leap = 1 := by
      unfold monthOfYearDay
      rw [if_neg h0, if_pos h1]
    exact Or.inr (Or.inl ⟨by omega, h1, e⟩)
  by_cases h2 : d < 90 + leap
  · have e : monthOfYearDay d leap = 2 := by
      unfold monthOfYearDay
      rw [if_neg h0, if_neg h1, if_pos h2]
    exact Or.inr (Or.inr (Or.inl ⟨by omega, h2, e⟩))
  by_cases h3 : d < 120 + leap
  · have e : monthOfYearDay d leap = 3 := by
      unfold monthOfYearDay
      rw [if_neg h0, if_neg h1, if_neg h2, if_pos h3]
    exact Or.inr (Or.inr (Or.inr (Or.inl ⟨by omega, h3, e⟩)))
  by_cases h4 : d < 151 + leap
  · have e : monthOfYearDay d leap = 4 := by
      unfold monthOfYearDay
      rw [if_neg h0, if_neg h1, if_neg h2, if_neg h3, if_pos h4]
    exact Or.inr (Or.inr (Or.inr (Or.inr (Or.inl ⟨by omega, h4, e⟩))))
  by_cases h5 : d < 181 + leap
  · have e : monthOfYearDay d leap = 5 := by
      unfold monthOfYearDay
      rw [if_neg h0, if_neg h1, if_neg h2, if_neg h3, if_neg h4, if_pos h5]
    exact Or.inr (Or.inr (Or.inr (Or.inr (Or.inr (Or.inl ⟨by omega, h5, e⟩)))))
  by_cases h6 : d < 212 + leap
  · have e : monthOfYearDay d leap = 6 := by
      unfold monthOfYearDay
      rw [if_neg h0, if_neg h1, if_neg h2, if_neg h3, if_neg h4, if_neg h5, if_pos h6]
    exact Or.inr (Or.inr (Or.inr (Or.inr (Or.inr (Or.inr (Or.inl ⟨by omega, h6, e⟩))))))
  by_cases h7 : d < 243 + leap
  · have e : monthOfYearDay d leap = 7 := by
      unfold monthOfYearDay
      rw [if_neg h0, if_neg h1, if_neg h2, if_neg h3, if_neg h4, if_neg h5, if_neg h6, if_pos h7]
    exact Or.inr (Or.inr (Or.inr (Or.inr (Or.inr (Or.inr (Or.inr (Or.inl ⟨by omega, h7, e⟩)))))))
  by_cases h8 : d < 273 + leap
  · have e : monthOfYearDay d leap = 8 := by
      unfold monthOfYearDay
      rw [if_neg h0, if_neg h1, if_neg h2, if_neg h3, if_neg h4, if_neg h5, if_neg h6, if_neg h7, if_pos h8]
    exact Or.inr (Or.inr (Or.inr (Or.inr (Or.inr (Or.inr (Or.inr (Or.inr (Or.inl ⟨by omega, h8, e⟩))))))))
  by_cases h9 : d < 304 + leap
  · have e : monthOfYearDay d leap = 9 := by
      unfold monthOfYearDay
      rw [if_neg h0, if_neg h1, if_neg h2, if_neg h3, if_neg h4, if_neg h5, if_neg h6, if_neg h7, if_neg h8, if_pos h9]
    exact Or.inr (Or.inr (Or.inr (Or.inr (Or.inr (Or.inr (Or.inr (Or.inr (Or.inr (Or.inl ⟨by omega, h9, e⟩)))))))))
  by_cases h10 : d < 334 + leap
  · have e : monthOfYearDay d leap = 10 := by
      unfold monthOfYearDay
      rw [if_neg h0, if_neg h1, if_neg h2, if_neg h3, if_neg h4, if_neg h5, if_neg h6, if_neg h7, if_neg h8, if_neg h9, if_pos h10]
    exact Or.inr (Or.inr (Or.inr (Or.inr (Or.inr (Or.inr (Or.inr (Or.inr (Or.inr (Or.inr (Or.inl ⟨by omega, h10, e⟩))))))))))
  have e : monthOfYearDay d leap = 11 := by
    unfold monthOfYearDay
    rw [if_neg h0, if_neg h1, if_neg h2, if_neg h3, if_neg h4, if_neg h5, if_neg h6, if_neg h7, if_neg h8, if_neg h9, if_neg h10]
  exact Or.inr (Or.inr (Or.inr (Or.inr (Or.inr (Or.inr (Or.inr (Or.inr (Or.inr (Or.inr (Or.inr (⟨by omega, e⟩)))))))))))

theorem monthOfYearDay_range (d leap : Int) :
    0 ≤ monthOfYearDay d leap ∧ monthOfYearDay d leap ≤ 11 := by
  rcases monthOfYearDay_cases d leap with h | h | h | h | h | h | h | h | h | h | h | h
  all_goals
    first
    | rw [h.2.2]
    | rw [h.2]
    omega

theorem monthStart_add_date (d leap : Int) :
    monthStart (monthOfYearDay d leap) leap + dateOfYearDay d leap (monthOfYearDay d leap)
      = d + 1 := by
  rcases monthOfYearDay_cases d leap with h | h | h | h | h | h | h | h | h | h | h | h
  all_goals
    first
    | rw [h.2.2]
    | rw [h.2]
    simp only [monthStart, dateOfYearDay]
    norm_num
  all_goals omega

theorem makeDay_dateFromTime (t k : Int) :
    MakeDay (YearFromTime t) (MonthFromTime t) (DateFromTime t + k) = Day t + k := by
  have hleap : (if DaysInYear (YearFromTime t) = 365 then (0 : Int) else 1) = InLeapYear t := rfl
  have hr := monthOfYearDay_range (DayWithinYear t) (InLeapYear t)
  have hs := monthStart_add_date (DayWithinYear t) (InLeapYear t)
  have hd : DayWithinYear t = Day t - DayFromYear (YearFromTime t) := rfl
  have hdiv : MonthFromTime t / 12 = 0 := by unfold MonthFromTime; omega
  have hmod : MonthFromTime t % 12 = MonthFromTime t := by unfold MonthFromTime; omega
  unfold MakeDay
  simp only [hdiv, hmod, add_zero, hleap]
  unfold DateFromTime MonthFromTime
  omega

theorem yearFromDay_spec (d : Int) :
    DayFromYear (yearFromDay d) ≤ d ∧ d < DayFromYear (yearFromDay d + 1) := by
  unfold yearFromDay
  simp only
  split_ifs with h1 h2
  · rw [sub_add_cancel]
    refine ⟨?_, h1⟩
    unfold DayFromYear at *
    omega
  · refine ⟨h2, ?_⟩
    unfold DayFromYear at *
    omega
  · exact ⟨not_lt.1 h1, not_le.1 h2⟩

theorem dayFromYear_succ (y : Int) : DayFromYear (y + 1) = DayFromYear y + DaysInYear y := by
  unfold DayFromYear DaysInYear
  split_ifs <;> omega

theorem yearFromDay_unique (d y : Int) (h1 : DayFromYear y ≤ d) (h2 : d < DayFromYear (y + 1)) :
    yearFromDay d = y := by
  have hs := yearFromDay_spec d
  have mono : ∀ a b : Int, a ≤ b → DayFromYear a ≤ DayFromYear b := by
    intro a b hab
    unfold DayFromYear
    omega
  by_contra hne
  rcases lt_or_gt_of_ne hne with h | h
  · have := mono (yearFromDay d + 1) y (by omega)
    omega
  · have := mono (y + 1) (yearFromDay d) (by omega)
    omega

theorem day_makeDate (day : Int) : Day (MakeDate day 0) = day := by
  unfold Day MakeDate msPerDay
  omega

theorem monthStart_values (leap : Int) :
    monthStart 0 leap = 0 ∧
    monthStart 1 leap = 31 ∧
    monthStart 2 leap = 59 + leap ∧
    monthStart 3 leap = 90 + leap ∧
    monthStart 4 leap = 120 + leap ∧
    monthStart 5 leap = 151 + leap ∧
    monthStart 6 leap = 181 + leap ∧
    monthStart 7 leap = 212 + leap ∧
    monthStart 8 leap = 243 + leap ∧
    monthStart 9 leap = 273 + leap ∧
    monthStart 10 leap = 304 + leap ∧
    monthStart 11 leap = 334 + leap := by
  refine ⟨rfl, rfl, rfl, rfl, rfl, rfl, rfl, rfl, rfl, rfl, rfl, rfl⟩

theorem monthLength_values (leap : Int) :
    monthLength 1 leap = 31 ∧
    monthLength 2 leap = 28 + leap ∧
    monthLength 3 leap = 31 ∧
    monthLength 4 leap = 30 ∧
    monthLength 5 leap = 31 ∧
    monthLength 6 leap = 30 ∧
    monthLength 7 leap = 31 ∧
    monthLength 8 leap = 31 ∧
    monthLength 9 leap = 30 ∧
    monthLength 10 leap = 31 ∧
    monthLength 11 leap = 30 ∧
    monthLength 12 leap = 31 := by
  refine ⟨rfl, rfl, rfl, rfl, rfl, rfl, rfl, rfl, rfl, rfl, rfl, rfl⟩

theorem dateOfYearDay_values (d leap : Int) :
    dateOfYearDay d leap 0 = d + 1 ∧
    dateOfYearDay d leap 1 = d - 30 ∧
    dateOfYearDay d leap 2 = d - 58 - leap ∧
    dateOfYearDay d leap 3 = d - 89 - leap ∧
    dateOfYearDay d leap 4 = d - 119 - leap ∧
    dateOfYearDay d leap 5 = d - 150 - leap ∧
    dateOfYearDay d leap 6 = d - 180 - leap ∧
    dateOfYearDay d leap 7 = d - 211 - leap ∧
    dateOfYearDay d leap 8 = d - 242 - leap ∧
    dateOfYearDay d leap 9 = d - 272 - leap ∧
    dateOfYearDay d leap 10 = d - 303 - leap ∧
    dateOfYearDay d leap 11 = d - 333 - leap := by
  refine ⟨rfl, rfl, rfl, rfl, rfl, rfl, rfl, rfl, rfl, rfl, rfl, rfl⟩

theorem yearDay_of_monthStart (m dd leap : Int) (hleap : leap = 0 ∨ leap = 1)
    (hm : 1 ≤ m ∧ m ≤ 12) (hd : 1 ≤ dd ∧ dd ≤ monthLength m leap) :
    0 ≤ monthStart (m - 1) leap + dd - 1 ∧ monthStart (m - 1) leap + dd - 1 < 365 + leap ∧
    monthOfYearDay (monthStart (m - 1) leap + dd - 1) leap = m - 1 ∧
    dateOfYearDay (monthStart (m - 1) leap + dd - 1) leap (m - 1) = dd := by
  by_cases c1 : m = 1
  · subst c1
    have e : (1 : Int) - 1 = 0 := by norm_num
    rw [(monthLength_values leap).1] at hd
    rw [e, (monthStart_values leap).1]
    refine ⟨by omega, by omega, ?_, ?_⟩
    · rcases monthOfYearDay_cases (0 + dd - 1) leap with h | h | h | h | h | h | h | h | h | h | h | h
      all_goals first | exact h.2.2 | exact h.2 | (exfalso; omega)
    · rw [(dateOfYearDay_values (0 + dd - 1) leap).1]
      omega
  by_cases c2 : m = 2
  · subst c2
    have e : (2 : Int) - 1 = 1 := by norm_num
    rw [(monthLength_values leap).2.1] at hd
    rw [e, (monthStart_values leap).2.1]
    refine ⟨by omega, by omega, ?_, ?_⟩
    · rcases monthOfYearDay_cases (31 + dd - 1) leap with h | h | h | h | h | h | h | h | h | h | h | h
      all_goals first | exact h.2.2 | exact h.2 | (exfalso; omega)
    · rw [(dateOfYearDay_values (31 + dd - 1) leap).2.1]
      omega
  by_cases c3 : m = 3
  · subst c3
    have e : (3 : Int) - 1 = 2 := by norm_num
    rw [(monthLength_values leap).2.2.1] at hd
    rw [e, (monthStart_values leap).2.2.1]
    refine ⟨by omega, by omega, ?_, ?_⟩
    · rcases monthOfYearDay_cases (59 + leap + dd - 1) leap with h | h | h | h | h | h | h | h | h | h | h | h
      all_goals first | exact h.2.2 | exact h.2 | (exfalso; omega)
    · rw [(dateOfYearDay_values (59 + leap + dd - 1) leap).2.2.1]
      omega
  by_cases c4 : m = 4
  · subst c4
    have e : (4 : Int) - 1 = 3 := by norm_num
    rw [(monthLength_values leap).2.2.2.1] at hd
    rw [e, (monthStart_values leap).2.2.2.1]
    refine ⟨by omega, by omega, ?_, ?_⟩
    · rcases monthOfYearDay_cases (90 + leap + dd - 1) leap with h | h | h | h | h | h | h | h | h | h | h | h
      all_goals first | exact h.2.2 | exact h.2 | (exfalso; omega)
    · rw [(dateOfYearDay_values (90 + leap + dd - 1) leap).2.2.2.1]
      omega
  by_cases c5 : m = 5
  · subst c5
    have e : (5 : Int) - 1 = 4 := by norm_num
    rw [(monthLength_values leap).2.2.2.2.1] at hd
    rw [e, (monthStart_values leap).2.2.2.2.1]
    refine ⟨by omega, by omega, ?_, ?_⟩
    · rcases monthOfYearDay_cases (120 + leap + dd - 1) leap with h | h | h | h | h | h | h | h | h | h | h | h
      all_goals first | exact h.2.2 | exact h.2 | (exfalso; omega)
    · rw [(dateOfYearDay_values (120 + leap + dd - 1) leap).2.2.2.2.1]
      omega
  by_cases c6 : m = 6
  · subst c6
    have e : (6 : Int) - 1 = 5 := by norm_num
    rw [(monthLength_values leap).2.2.2.2.2.1] at hd
    rw [e, (monthStart_values leap).2.2.2.2.2.1]
    refine ⟨by omega, by omega, ?_, ?_⟩
    · rcases monthOfYearDay_cases (151 + leap + dd - 1) leap with h | h | h | h | h | h | h | h | h | h | h | h
      all_goals first | exact h.2.2 | exact h.2 | (exfalso; omega)
    · rw [(dateOfYearDay_values (151 + leap + dd - 1) leap).2.2.2.2.2.1]
      omega
  by_cases c7 : m = 7
  · subst c7
    have e : (7 : Int) - 1 = 6 := by norm_num
    rw [(monthLength_values leap).2.2.2.2.2.2.1] at hd
    rw [e, (monthStart_values leap).2.2.2.2.2.2.1]
    refine ⟨by omega, by omega, ?_, ?_⟩
    · rcases monthOfYearDay_cases (181 + leap + dd - 1) leap with h | h | h | h | h | h | h | h | h | h | h | h
      all_goals first | exact h.2.2 | exact h.2 | (exfalso; omega)
    · rw [(dateOfYearDay_values (181 + leap + dd - 1) leap).2.2.2.2.2.2.1]
      omega
  by_cases c8 : m = 8
  · subst c8
    have e : (8 : Int) - 1 = 7 := by norm_num
    rw [(monthLength_values leap).2.2.2.2.2.2.2.1] at hd
    rw [e, (monthStart_values leap).2.2.2.2.2.2.2.1]
    refine ⟨by omega, by omega, ?_, ?_⟩
    · rcases monthOfYearDay_cases (212 + leap + dd - 1) leap with h | h | h | h | h | h | h | h | h | h | h | h
      all_goals first | exact h.2.2 | exact h.2 | (exfalso; omega)
    · rw [(dateOfYearDay_values (212 + leap + dd - 1) leap).2.2.2.2.2.2.2.1]
      omega
  by_cases c9 : m = 9
  · subst c9
    have e : (9 : Int) - 1 = 8 := by norm_num
    rw [(monthLength_values leap).2.2.2.2.2.2.2.2.1] at hd
    rw [e, (monthStart_values leap).2.2.2.2.2.2.2.2.1]
    refine ⟨by omega, by omega, ?_, ?_⟩
    · rcases monthOfYearDay_cases (243 + leap + dd - 1) leap with h | h | h | h | h | h | h | h | h | h | h | h
      all_goals first | exact h.2.2 | exact h.2 | (exfalso; omega)
    · rw [(dateOfYearDay_values (243 + leap + dd - 1) leap).2.2.2.2.2.2.2.2.1]
      omega
  by_cases c10 : m = 10
  · subst c10
    have e : (10 : Int) - 1 = 9 := by norm_num
    rw [(monthLength_values leap).2.2.2.2.2.2.2.2.2.1] at hd
    rw [e, (monthStart_values leap).2.2.2.2.2.2.2.2.2.1]
    refine ⟨by omega, by omega, ?_, ?_⟩
    · rcases monthOfYearDay_cases (273 + leap + dd - 1) leap with h | h | h | h | h | h | h | h | h | h | h | h
      all_goals first | exact h.2.2 | exact h.2 | (exfalso; omega)
    · rw [(dateOfYearDay_values (273 + leap + dd - 1) leap).2.2.2.2.2.2.2.2.2.1]
      omega
  by_cases c11 : m = 11
  · subst c11
    have e : (11 : Int) - 1 = 10 := by norm_num
    rw [(monthLength_values leap).2.2.2.2.2.2.2.2.2.2.1] at hd
    rw [e, (monthStart_values leap).2.2.2.2.2.2.2.2.2.2.1]
    refine ⟨by omega, by omega, ?_, ?_⟩
    · rcases monthOfYearDay_cases (304 + leap + dd - 1) leap with h | h | h | h | h | h | h | h | h | h | h | h
      all_goals first | exact h.2.2 | exact h.2 | (exfalso; omega)
    · rw [(dateOfYearDay_values (304 + leap + dd - 1) leap).2.2.2.2.2.2.2.2.2.2.1]
      omega
  by_cases c12 : m = 12
  · subst c12
    have e : (12 : Int) - 1 = 11 := by norm_num
    rw [(monthLength_values leap).2.2.2.2.2.2.2.2.2.2.2] at hd
    rw [e, (monthStart_values leap).2.2.2.2.2.2.2.2.2.2.2]
    refine ⟨by omega, by omega, ?_, ?_⟩
    · rcases monthOfYearDay_cases (334 + leap + dd - 1) leap with h | h | h | h | h | h | h | h | h | h | h | h
      all_goals first | exact h.2.2 | exact h.2 | (exfalso; omega)
    · rw [(dateOfYearDay_values (334 + leap + dd - 1) leap).2.2.2.2.2.2.2.2.2.2.2]
      omega
  omega

theorem leapFlag_cases (y : Int) :
    ((if DaysInYear y = 365 then (0 : Int) else 1) = 0 ∧ DaysInYear y = 365) ∨
    ((if DaysInYear y = 365 then (0 : Int) else 1) = 1 ∧ DaysInYear y = 366) := by
  have h : DaysInYear y = 365 ∨ DaysInYear y = 366 := by
    unfold DaysInYear
    split_ifs <;> simp
  rcases h with h | h
  · left; simp [h]
  · right; simp [h]

theorem daysInMonth_eq (y m : Int) :
    daysInMonth y m = monthLength m (if DaysInYear y = 365 then 0 else 1) := by
  unfold daysInMonth monthLength
  rcases leapFlag_cases y with ⟨h1, h2⟩ | ⟨h1, h2⟩ <;> simp [h2]

/-- The calendar functions invert `MakeDay` on valid calendar dates. -/
theorem calendar_of_makeDay (y m dd : Int) (hm : 1 ≤ m ∧ m ≤ 12)
    (hd : 1 ≤ dd ∧ dd ≤ daysInMonth y m) :
    YearFromTime (MakeDate (MakeDay y (m - 1) dd) 0) = y ∧
    MonthFromTime (MakeDate (MakeDay y (m - 1) dd) 0) = m - 1 ∧
    DateFromTime (MakeDate (MakeDay y (m - 1) dd) 0) = dd := by
  have hdiv : (m - 1) / 12 = 0 := by omega
  have hmod : (m - 1) % 12 = m - 1 := by omega
  rw [daysInMonth_eq] at hd
  have hl := leapFlag_cases y
  generalize hleap : (if DaysInYear y = 365 then (0 : Int) else 1) = leap at hd hl
  have hmk : MakeDay y (m - 1) dd = DayFromYear y + (monthStart (m - 1) leap + dd - 1) := by
    unfold MakeDay
    simp only [hdiv, hmod, add_zero, hleap]
    ring
  obtain ⟨r1, r2, r3, r4⟩ := yearDay_of_monthStart m dd leap
    (by rcases hl with h | h; exact Or.inl h.1; exact Or.inr h.1) hm hd
  generalize monthStart (m - 1) leap + dd - 1 = yd at hmk r1 r2 r3 r4
  have hyear : YearFromTime (MakeDate (MakeDay y (m - 1) dd) 0) = y := by
    unfold YearFromTime
    rw [day_makeDate, hmk]
    apply yearFromDay_unique
    · omega
    · rw [dayFromYear_succ]; omega
  have hdw : DayWithinYear (MakeDate (MakeDay y (m - 1) dd) 0) = yd := by
    unfold DayWithinYear
    rw [hyear, day_makeDate, hmk]
    ring
  have hil : InLeapYear (MakeDate (MakeDay y (m - 1) dd) 0) = leap := by
    unfold InLeapYear
    rw [hyear, hleap]
  have hmonth : MonthFromTime (MakeDate (MakeDay y (m - 1) dd) 0) = m - 1 := by
    unfold MonthFromTime
    rw [hdw, hil, r3]
  refine ⟨hyear, hmonth, ?_⟩
  unfold DateFromTime
  rw [hmonth, hdw, hil, r4]

/-- The date-only string `YYYY-MM-DD` parses to midnight UTC of the calendar
date it spells: reading the parsed time value back in UTC gives the year,
month and day that are written. -/
theorem dateParse_localDate (y1 y2 y3 y4 m1 m2 d1 d2 : Nat) (t : Int)
    (h : dateParse [y1, y2, y3, y4, 45, m1, m2, 45, d1, d2] = some t) :
    localDate 0 t =
      (1000 * ((y1 : Int) - 48) + 100 * ((y2 : Int) - 48) + 10 * ((y3 : Int) - 48)
        + ((y4 : Int) - 48),
       10 * ((m1 : Int) - 48) + ((m2 : Int) - 48),
       10 * ((d1 : Int) - 48) + ((d2 : Int) - 48)) := by
  simp only [dateParse, Option.bind_eq_some] at h
  obtain ⟨a, ha, b, hb, c, hc, d, hd, e, he, f, hf, g, hg, i, hi, h⟩ := h
  have dv : ∀ (x : Nat) (v : Int), digitValue x = some v → v = (x : Int) - 48 := by
    intro x v hx
    unfold digitValue at hx
    split_ifs at hx
    exact (Option.some.inj hx).symm
  rw [dv _ _ ha, dv _ _ hb, dv _ _ hc, dv _ _ hd, dv _ _ he, dv _ _ hf, dv _ _ hg,
    dv _ _ hi] at h
  split_ifs at h with hvalid
  have ht := timeClip_some _ _ h
  obtain ⟨c1, c2, c3⟩ := calendar_of_makeDay _ _ _ ⟨hvalid.1, hvalid.2.1⟩
    ⟨hvalid.2.2.1, hvalid.2.2.2⟩
  simp only [localDate, LocalTime, add_zero, ht, c1, c2, c3]
  simp

/-! ## What the date filters compute

The filter compares `new Date(task.dueDate)`, which is midnight UTC of the due
date, with `today`, which `setHours(0, 0, 0, 0)` puts at local midnight. The two
agree on what a day is only when the local offset is zero. -/

theorem includes_nil (s : JSString) : includes s [] = true := by
  cases s <;> simp [includes, List.tails]

theorem dateParse_nil : dateParse [] = none := rfl

/-- A parsed due date is midnight UTC of some day. -/
theorem dateParse_midnight (s : JSString) (d : Int) (h : dateParse s = some d) :
    d = Day d * msPerDay := by
  unfold dateParse at h
  split at h
  · simp only [Option.bind_eq_some] at h
    obtain ⟨a, -, b, -, c, -, e, -, f, -, g, -, i, -, j, -, h⟩ := h
    split_ifs at h
    have := timeClip_some _ _ h
    subst this
    unfold MakeDate Day msPerDay
    omega
  · exact absurd h (by simp)

/-- The value `today` of app.js:213-214 is local midnight. -/
theorem setHours_midnight (tza now : Int)
    (hnow : -8640000000000000 + 86400000 ≤ now ∧ now ≤ 8640000000000000) :
    setHours tza (some now) 0 0 0 0 = some (Day (LocalTime tza now) * msPerDay - tza) := by
  simp only [setHours, Option.some_bind, UTC, MakeDate, MakeTime]
  rw [timeClip_eq]
  · simp
  · unfold Day LocalTime msPerDay
    omega
  · unfold Day LocalTime msPerDay
    omega

/-- The value `nextWeek` of app.js:220-221 is `today` plus seven days. -/
theorem setDate_add_seven (tza today : Int)
    (h : -8640000000000000 ≤ today + 7 * 86400000 ∧ today + 7 * 86400000 ≤ 8640000000000000) :
    setDate tza (some today) ((getDate tza (some today)).map (· + 7))
      = some (today + 7 * msPerDay) := by
  simp only [setDate, getDate, Option.map_some', Option.some_bind, makeDay_dateFromTime, UTC,
    MakeDate, TimeWithinDay]
  have e : (Day (LocalTime tza today) + 7) * msPerDay + LocalTime tza today % msPerDay - tza
      = today + 7 * msPerDay := by
    unfold Day LocalTime msPerDay
    omega
  rw [e, timeClip_eq]
  · unfold msPerDay; omega
  · unfold msPerDay; omega

theorem filterTasks_date_filters (toLowerCase : JSString → JSString)
    (hlower : toLowerCase [] = []) (tasks : List Task) (filterValue : JSString) (now tza : Int)
    (hfv : filterValue = utf16 "today" ∨ filterValue = utf16 "week" ∨
      filterValue = utf16 "overdue")
    (hnow : -8640000000000000 + 86400000 ≤ now ∧ now ≤ 8640000000000000 - 7 * 86400000) :
    filterTasks toLowerCase tasks [] filterValue (utf16 "all") now tza
      = tasks.filter fun task =>
          match dateParse task.dueDate with
          | none => false
          | some d =>
            if filterValue = utf16 "today" then decide (d = localDay tza now * msPerDay - tza)
            else if filterValue = utf16 "week" then
              decide (localDay tza now * msPerDay - tza ≤ d ∧
                d ≤ localDay tza now * msPerDay - tza + 7 * msPerDay)
            else decide (d < localDay tza now * msPerDay - tza) && !task.completed := by
  have htoday := setHours_midnight tza now ⟨hnow.1, by omega⟩
  have hrange : -8640000000000000 ≤ Day (LocalTime tza now) * msPerDay - tza + 7 * 86400000 ∧
      Day (LocalTime tza now) * msPerDay - tza + 7 * 86400000 ≤ 8640000000000000 := by
    unfold Day LocalTime msPerDay
    omega
  have hnext := setDate_add_seven tza _ hrange
  have e1 : (utf16 "today" == utf16 "all") = false := by decide
  have e2 : (utf16 "today" == utf16 "completed") = false := by decide
  have e3 : (utf16 "week" == utf16 "all") = false := by decide
  have e4 : (utf16 "week" == utf16 "completed") = false := by decide
  have e5 : (utf16 "overdue" == utf16 "all") = false := by decide
  have e6 : (utf16 "overdue" == utf16 "completed") = false := by decide
  have e7 : (utf16 "week" == utf16 "today") = false := by decide
  have e8 : (utf16 "overdue" == utf16 "today") = false := by decide
  have e9 : (utf16 "overdue" == utf16 "week") = false := by decide
  have n7 : utf16 "week" ≠ utf16 "today" := by decide
  have n8 : utf16 "overdue" ≠ utf16 "today" := by decide
  have n9 : utf16 "overdue" ≠ utf16 "week" := by decide
  unfold filterTasks
  simp only [hlower, includes_nil, htoday, hnext]
  apply List.filter_congr
  intro task _
  by_cases hdue : task.dueDate = []
  · rcases hfv with h | h | h <;> subst h <;>
      simp [hdue, dateParse_nil, e1, e2, e3, e4, e5, e6]
  · cases hp : dateParse task.dueDate with
    | none =>
      rcases hfv with h | h | h <;> subst h <;>
        simp [hdue, e1, e2, e3, e4, e5, e6, e7, e8, e9, numEq, numLe, numLt]
    | some d =>
      rcases hfv with h | h | h <;> subst h <;>
        simp [hdue, e1, e2, e3, e4, e5, e6, e7, e8, e9, n7, n8, n9, numEq, numLe, numLt,
          localDay]

theorem midnight_lt_iff (k l tza : Int) (htz : -86400000 < tza ∧ tza < 86400000) :
    k * msPerDay < l * msPerDay - tza ↔ if 0 ≤ tza then k < l else k ≤ l := by
  unfold msPerDay
  split_ifs <;> omega

theorem midnight_eq_iff (k l tza : Int) (htz : -86400000 < tza ∧ tza < 86400000) :
    k * msPerDay = l * msPerDay - tza ↔ k = l ∧ tza = 0 := by
  unfold msPerDay
  omega

theorem midnight_week_iff (k l tza : Int) (htz : -86400000 < tza ∧ tza < 86400000) :
    (l * msPerDay - tza ≤ k * msPerDay ∧ k * msPerDay ≤ l * msPerDay - tza + 7 * msPerDay) ↔
      (if 0 ≤ tza then l else l + 1) ≤ k ∧ k ≤ (if 0 < tza then l + 6 else l + 7) := by
  unfold msPerDay
  split_ifs <;> omega

/-- What the "overdue" filter computes, for a local offset of less than a day:
east of UTC and at UTC the open tasks due before today; west of UTC the open
tasks due today or before. -/
theorem filterTasks_overdue_eq (toLowerCase : JSString → JSString)
    (hlower : toLowerCase [] = []) (tasks : List Task) (now tza : Int)
    (htz : -86400000 < tza ∧ tza < 86400000)
    (hnow : -8640000000000000 + 86400000 ≤ now ∧ now ≤ 8640000000000000 - 7 * 86400000) :
    filterTasks toLowerCase tasks [] (utf16 "overdue") (utf16 "all") now tza
      = tasks.filter fun task =>
          dueDayIs (fun k => if 0 ≤ tza then decide (k < localDay tza now)
            else decide (k ≤ localDay tza now)) task && !task.completed := by
  rw [filterTasks_date_filters toLowerCase hlower tasks _ now tza (Or.inr (Or.inr rfl)) hnow]
  have n8 : utf16 "overdue" ≠ utf16 "today" := by decide
  have n9 : utf16 "overdue" ≠ utf16 "week" := by decide
  apply List.filter_congr
  intro task _
  cases hp : dateParse task.dueDate with
  | none => simp [dueDayIs, dueDay, hp]
  | some d =>
    have hd := dateParse_midnight _ _ hp
    have hiff := midnight_lt_iff (Day d) (localDay tza now) tza htz
    rw [← hd] at hiff
    simp only [dueDayIs, dueDay, hp, Option.map_some', n8, n9, if_false]
    by_cases h0 : 0 ≤ tza
    · simp only [h0, if_true] at hiff ⊢
      simp [hiff]
    · simp only [h0, if_false] at hiff ⊢
      simp [hiff]

/-- What the "today" filter computes, for a local offset of less than a day:
the tasks due today when the offset is zero, and nothing otherwise. -/
theorem filterTasks_today_eq (toLowerCase : JSString → JSString)
    (hlower : toLowerCase [] = []) (tasks : List Task) (now tza : Int)
    (htz : -86400000 < tza ∧ tza < 86400000)
    (hnow : -8640000000000000 + 86400000 ≤ now ∧ now ≤ 8640000000000000 - 7 * 86400000) :
    filterTasks toLowerCase tasks [] (utf16 "today") (utf16 "all") now tza
      = tasks.filter fun task =>
          dueDayIs (fun k => decide (k = localDay tza now ∧ tza = 0)) task := by
  rw [filterTasks_date_filters toLowerCase hlower tasks _ now tza (Or.inl rfl) hnow]
  apply List.filter_congr
  intro task _
  cases hp : dateParse task.dueDate with
  | none => simp [dueDayIs, dueDay, hp]
  | some d =>
    have hd := dateParse_midnight _ _ hp
    have hiff := midnight_eq_iff (Day d) (localDay tza now) tza htz
    rw [← hd] at hiff
    simp only [dueDayIs, dueDay, hp, Option.map_some', if_true]
    simp [hiff]

/-- What the "week" filter computes, for a local offset of less than a day:
the tasks due from today to today plus seven days at UTC; east of UTC the last
day is missing, west of UTC the first. -/
theorem filterTasks_week_eq (toLowerCase : JSString → JSString)
    (hlower : toLowerCase [] = []) (tasks : List Task) (now tza : Int)
    (htz : -86400000 < tza ∧ tza < 86400000)
    (hnow : -8640000000000000 + 86400000 ≤ now ∧ now ≤ 8640000000000000 - 7 * 86400000) :
    filterTasks toLowerCase tasks [] (utf16 "week") (utf16 "all") now tza
      = tasks.filter fun task =>
          dueDayIs (fun k =>
            decide ((if 0 ≤ tza then localDay tza now else localDay tza now + 1) ≤ k ∧
              k ≤ (if 0 < tza then localDay tza now + 6 else localDay tza now + 7))) task := by
  rw [filterTasks_date_filters toLowerCase hlower tasks _ now tza (Or.inr (Or.inl rfl)) hnow]
  have n7 : utf16 "week" ≠ utf16 "today" := by decide
  apply List.filter_congr
  intro task _
  cases hp : dateParse task.dueDate with
  | none => simp [dueDayIs, dueDay, hp]
  | some d =>
    have hd := dateParse_midnight _ _ hp
    have hiff := midnight_week_iff (Day d) (localDay tza now) tza htz
    rw [← hd] at hiff
    simp only [dueDayIs, dueDay, hp, Option.map_some', n7, if_false, if_true]
    simp only [hiff]

/-! ## The date filters away from UTC -/

/-- C5 on the code, five hours west of UTC: at local noon of 2024-03-10 the
"overdue" filter returns an open task that is due on 2024-03-10, that is,
today. -/
theorem filterTasks_overdue_returns_task_due_today :
    localDate (-18000000) 1710090000000 = (2024, 3, 10) ∧
    filterTasks toLowerCaseAscii
      [⟨1, utf16 "Pay rent", utf16 "2024-03-10", [], false, 1⟩]
      [] (utf16 "overdue") (utf16 "all") 1710090000000 (-18000000)
      = [⟨1, utf16 "Pay rent", utf16 "2024-03-10", [], false, 1⟩] := by
  decide

/-- C6 on the code, one hour east of UTC: at local noon of 2024-03-10 the
"today" filter returns nothing for a task that is due on 2024-03-10. -/
theorem filterTasks_today_misses_task_due_today :
    localDate 3600000 1710068400000 = (2024, 3, 10) ∧
    filterTasks toLowerCaseAscii
      [⟨1, utf16 "Pay rent", utf16 "2024-03-10", [], false, 1⟩]
      [] (utf16 "today") (utf16 "all") 1710068400000 3600000 = [] := by
  decide

/-- C7 on the code: one hour east of UTC, at local noon of 2024-03-10, the
"week" filter drops the task due seven days later (2024-03-17) and keeps the
one due on 2024-03-10; five hours west of UTC, at local noon of the same day,
it drops the task due on 2024-03-10. -/
theorem filterTasks_week_misses_inclusive_ends :
    localDate 3600000 1710068400000 = (2024, 3, 10) ∧
    filterTasks toLowerCaseAscii
      [⟨1, utf16 "Pay rent", utf16 "2024-03-10", [], false, 1⟩,
       ⟨2, utf16 "Renew pass", utf16 "2024-03-17", [], false, 2⟩]
      [] (utf16 "week") (utf16 "all") 1710068400000 3600000
      = [⟨1, utf16 "Pay rent", utf16 "2024-03-10", [], false, 1⟩] ∧
    localDate (-18000000) 1710090000000 = (2024, 3, 10) ∧
    filterTasks toLowerCaseAscii
      [⟨1, utf16 "Pay rent", utf16 "2024-03-10", [], false, 1⟩,
       ⟨2, utf16 "Renew pass", utf16 "2024-03-17", [], false, 2⟩]
      [] (utf16 "week") (utf16 "all") 1710090000000 (-18000000)
      = [⟨2, utf16 "Renew pass", utf16 "2024-03-17", [], false, 2⟩] := by
  decide

/-! ## Properties of the progress calculator -/

theorem roundHalfEven_err (y : ℚ) : |(roundHalfEven y : ℚ) - y| ≤ 1 / 2 := by
  have h1 := Int.floor_le y
  have h2 := Int.lt_floor_add_one y
  unfold roundHalfEven
  simp only
  rw [abs_le]
  split_ifs <;> push_cast <;> constructor <;> linarith

theorem roundHalfEven_down (x : ℚ) (z : ℤ) (h1 : (z : ℚ) ≤ x) (h2 : 2 * (x - z) < 1) :
    roundHalfEven x = z := by
  have hf : ⌊x⌋ = z := by
    rw [Int.floor_eq_iff]
    constructor <;> linarith
  simp [roundHalfEven, hf, h2]

theorem log_two_eq (x : ℚ) (e : ℤ) (h1 : (2 : ℚ) ^ e ≤ x) (h2 : x < 2 ^ (e + 1)) :
    Int.log 2 x = e := by
  have hx : 0 < x := lt_of_lt_of_le (by positivity) h1
  have a1 : e ≤ Int.log 2 x := by
    rw [← Int.zpow_le_iff_le_log (by norm_num) hx]
    simpa using h1
  have a2 : Int.log 2 x < e + 1 := by
    rw [← Int.lt_zpow_iff_log_lt (by norm_num) hx]
    simpa using h2
  omega

theorem roundToDouble_eval (x : ℚ) (e : ℤ) (h1 : (2 : ℚ) ^ e ≤ x) (h2 : x < 2 ^ (e + 1)) :
    roundToDouble x = roundHalfEven (x / 2 ^ (e - 52)) * 2 ^ (e - 52) := by
  have hx : 0 < x := lt_of_lt_of_le (by positivity) h1
  simp [roundToDouble, hx.ne', abs_of_pos hx, log_two_eq x e h1 h2]

theorem roundToDouble_err (x : ℚ) (hx : 0 < x) : |roundToDouble x - x| ≤ x / 2 ^ 53 := by
  have hlog : (2 : ℚ) ^ Int.log 2 x ≤ x := by
    have := Int.zpow_log_le_self (b := 2) (r := x) (by norm_num) hx
    simpa using this
  have hulp : (0 : ℚ) < 2 ^ (Int.log 2 x - 52) := by positivity
  have hu : (2 : ℚ) ^ (Int.log 2 x - 52) = 2 ^ Int.log 2 x / 2 ^ 52 := by
    rw [zpow_sub₀ (by norm_num)]
    norm_num
  have herr := roundHalfEven_err (x / 2 ^ (Int.log 2 x - 52))
  have heq : roundToDouble x - x
      = ((roundHalfEven (x / 2 ^ (Int.log 2 x - 52)) : ℚ) - x / 2 ^ (Int.log 2 x - 52))
        * 2 ^ (Int.log 2 x - 52) := by
    simp only [roundToDouble, hx.ne', abs_of_pos hx, if_false]
    field_simp
  rw [heq, abs_mul, abs_of_pos hulp]
  calc |(roundHalfEven (x / 2 ^ (Int.log 2 x - 52)) : ℚ) - x / 2 ^ (Int.log 2 x - 52)|
        * 2 ^ (Int.log 2 x - 52)
      ≤ 1 / 2 * 2 ^ (Int.log 2 x - 52) := by
        exact mul_le_mul_of_nonneg_right herr hulp.le
    _ = 2 ^ Int.log 2 x / 2 ^ 53 := by rw [hu]; ring
    _ ≤ x / 2 ^ 53 := by
        apply div_le_div_of_nonneg_right hlog
        positivity

theorem roundToDouble_zero : roundToDouble 0 = 0 := by simp [roundToDouble]

/-- Error of the two roundings in `(c / n) * 100`. -/
theorem progress_close (c n : ℕ) (hn : 0 < n) (hc : c ≤ n) :
    |roundToDouble (roundToDouble ((c : ℚ) / n) * 100) - 100 * c / n| ≤ 1 / 2 ^ 44 := by
  have hn' : (0 : ℚ) < n := by exact_mod_cast hn
  rcases Nat.eq_zero_or_pos c with h0 | hpos
  · subst h0
    simp [roundToDouble_zero]
  · have hc' : (0 : ℚ) < c := by exact_mod_cast hpos
    have hx : (0 : ℚ) < (c : ℚ) / n := div_pos hc' hn'
    have hx1 : (c : ℚ) / n ≤ 1 := by
      rw [div_le_one hn']
      exact_mod_cast hc
    have e1 := roundToDouble_err _ hx
    rw [abs_le] at e1
    have ha : 0 < roundToDouble ((c : ℚ) / n) := by
      have : (c : ℚ) / n / 2 ^ 53 < (c : ℚ) / n := by
        apply div_lt_self hx
        norm_num
      linarith [e1.1]
    have hz : 0 < roundToDouble ((c : ℚ) / n) * 100 := by positivity
    have e2 := roundToDouble_err _ hz
    rw [abs_le] at e2
    have hq : (100 : ℚ) * c / n = (c : ℚ) / n * 100 := by ring
    rw [hq, abs_le]
    generalize (c : ℚ) / n = x at *
    generalize roundToDouble x = a at *
    generalize roundToDouble (a * 100) = y at *
    constructor
    · norm_num at e1 e2 ⊢
      linarith
    · norm_num at e1 e2 ⊢
      linarith

/-- Rounding a value that is within `2^-44` of `100 c / n`. -/
theorem mathRound_close (c n : ℕ) (hn : 0 < n) (hn32 : n < 2 ^ 32) (y : ℚ)
    (hy : |y - 100 * c / n| ≤ 1 / 2 ^ 44) :
    mathRound (100 * c / n) - 1 ≤ mathRound y ∧ mathRound y ≤ mathRound (100 * c / n) ∧
    (Int.fract ((100 : ℚ) * c / n) ≠ 1 / 2 → mathRound y = mathRound (100 * c / n)) := by
  have hn' : (0 : ℚ) < n := by exact_mod_cast hn
  have hn2 : (n : ℚ) < 2 ^ 32 := by exact_mod_cast hn32
  rw [abs_le] at hy
  set q : ℚ := 100 * c / n with hq
  set R : ℤ := mathRound q with hR
  have hR1 : (R : ℚ) ≤ q + 1 / 2 := Int.floor_le _
  have hR2 : q + 1 / 2 < R + 1 := Int.lt_floor_add_one _
  -- the distance of `q + 1/2` to `R` is `K / (2 n)` for an integer `K`
  have hK : q + 1 / 2 - R = ((200 * c + n - 2 * n * R : ℤ) : ℚ) / (2 * n) := by
    rw [hq]
    push_cast
    field_simp
    ring
  have hK2 : (R : ℚ) + 1 - (q + 1 / 2) = ((2 * n * (R + 1) - 200 * c - n : ℤ) : ℚ) / (2 * n) := by
    rw [hq]
    push_cast
    field_simp
    ring
  have h2n : (0 : ℚ) < 2 * n := by positivity
  have hsmall : (1 : ℚ) / 2 ^ 44 < 1 / (2 * n) := by
    rw [div_lt_div_iff₀ (by positivity) h2n]
    norm_num
    linarith
  have hKpos : (1 : ℤ) ≤ 2 * n * (R + 1) - 200 * c - n := by
    have : (0 : ℚ) < ((2 * n * (R + 1) - 200 * c - n : ℤ) : ℚ) / (2 * n) := by
      rw [← hK2]; linarith
    have h3 : (0 : ℚ) < ((2 * n * (R + 1) - 200 * c - n : ℤ) : ℚ) := by
      rcases (div_pos_iff.1 this) with h | h
      · exact h.1
      · linarith [h.2]
    have h4 : (0 : ℤ) < 2 * n * (R + 1) - 200 * c - n := by exact_mod_cast h3
    omega
  have hup : (1 : ℚ) / (2 * n) ≤ (R : ℚ) + 1 - (q + 1 / 2) := by
    rw [hK2]
    apply div_le_div_of_nonneg_right _ h2n.le
    exact_mod_cast hKpos
  have hle : mathRound y ≤ R := by
    have : mathRound y < R + 1 := by
      unfold mathRound
      rw [Int.floor_lt]
      push_cast
      linarith [hy.2]
    omega
  have hge : R - 1 ≤ mathRound y := by
    unfold mathRound
    rw [Int.le_floor]
    push_cast
    have : (1 : ℚ) / 2 ^ 44 < 1 := by norm_num
    linarith [hy.1]
  refine ⟨hge, hle, fun hfr => ?_⟩
  have hKne : (200 * c + n - 2 * n * R : ℤ) ≠ 0 := by
    intro h0
    apply hfr
    rw [h0] at hK
    have hqR : q = (R - 1 : ℤ) + 1 / 2 := by
      push_cast
      simp at hK
      linarith
    rw [hqR, Int.fract_int_add]
    rw [Int.fract_eq_iff]
    refine ⟨by norm_num, by norm_num, 0, by simp⟩
  have hKnn : (0 : ℤ) ≤ 200 * c + n - 2 * n * R := by
    have : (0 : ℚ) ≤ ((200 * c + n - 2 * n * R : ℤ) : ℚ) / (2 * n) := by
      rw [← hK]; linarith
    have h3 : (0 : ℚ) ≤ ((200 * c + n - 2 * n * R : ℤ) : ℚ) := by
      by_contra hneg
      push_neg at hneg
      have := div_neg_of_neg_of_pos hneg h2n
      linarith
    exact_mod_cast h3
  have hK1 : (1 : ℤ) ≤ 200 * c + n - 2 * n * R := by omega
  have hlow : (1 : ℚ) / (2 * n) ≤ q + 1 / 2 - R := by
    rw [hK]
    apply div_le_div_of_nonneg_right _ h2n.le
    exact_mod_cast hK1
  have : R ≤ mathRound y := by
    unfold mathRound
    rw [Int.le_floor]
    linarith [hy.1]
  omega

/-- C8 on the code: with 23 of 40 tasks completed the exact percentage is 57.5,
which rounds to 58, but the source divides first: the Number `23 / 40` is
already rounded, `(23 / 40) * 100` is `8092405580431359 / 2^47 =
57.49999999999999...` and `Math.round` gives 57. -/
theorem updateProgress_tie_rounds_down :
    updateProgress
      (List.replicate 23 ⟨1, utf16 "done", [], [], true, 1⟩ ++
        List.replicate 17 ⟨2, utf16 "open", [], [], false, 2⟩) = 57 ∧
    mathRound (100 * 23 / 40) = 58 := by
  have hlen : (List.replicate 23 (⟨1, utf16 "done", [], [], true, 1⟩ : Task) ++
      List.replicate 17 (⟨2, utf16 "open", [], [], false, 2⟩ : Task)).length = 40 := by
    simp
  have hcnt : ((List.replicate 23 (⟨1, utf16 "done", [], [], true, 1⟩ : Task) ++
      List.replicate 17 (⟨2, utf16 "open", [], [], false, 2⟩ : Task)).filter
        fun task => task.completed).length = 23 := by
    simp [List.filter_append, List.filter_replicate]
  have h1 : roundToDouble ((23 : ℚ) / 40) = 5179139571476070 / 2 ^ 53 := by
    rw [roundToDouble_eval _ (-1) (by norm_num) (by norm_num),
      roundHalfEven_down _ 5179139571476070 (by norm_num) (by norm_num)]
    norm_num
  have h2 : roundToDouble ((5179139571476070 : ℚ) / 2 ^ 53 * 100) = 8092405580431359 / 2 ^ 47 := by
    rw [roundToDouble_eval _ 5 (by norm_num) (by norm_num),
      roundHalfEven_down _ 8092405580431359 (by norm_num) (by norm_num)]
    norm_num
  have h3 : mathRound ((8092405580431359 : ℚ) / 2 ^ 47) = 57 := by
    unfold mathRound
    rw [Int.floor_eq_iff]
    norm_num
  constructor
  · unfold updateProgress
    rw [hlen, hcnt]
    simp only [Nat.cast_ofNat]
    rw [h1, h2, h3]
    simp
  · unfold mathRound
    rw [Int.floor_eq_iff]
    norm_num

/-- How far the source is from the exact percentage: for a sequence of fewer
than `2^32` tasks (the bound on the length of an array) the result is an
integer between 0 and 100, 0 for the empty sequence; it equals
`100 * completedCount / totalCount` rounded to the nearest integer whenever that
value is not exactly halfway between two integers, and at an exact half it is
never more than one below the rounded value. -/
theorem updateProgress_near_exact (tasks : List Task) (hlen : tasks.length < 2 ^ 32) :
    (tasks = [] → updateProgress tasks = 0) ∧
    0 ≤ updateProgress tasks ∧ updateProgress tasks ≤ 100 ∧
    (tasks ≠ [] →
      mathRound (100 * completedCount tasks / tasks.length) - 1 ≤ updateProgress tasks ∧
      updateProgress tasks ≤ mathRound (100 * completedCount tasks / tasks.length) ∧
      (Int.fract ((100 : ℚ) * completedCount tasks / tasks.length) ≠ 1 / 2 →
        updateProgress tasks = mathRound (100 * completedCount tasks / tasks.length))) := by
  by_cases hnil : tasks = []
  · subst hnil
    simp [updateProgress]
  · have hpos : 0 < tasks.length := List.length_pos.2 hnil
    have hc : completedCount tasks ≤ tasks.length := List.length_filter_le _ _
    have hval : updateProgress tasks
        = mathRound (roundToDouble (roundToDouble ((completedCount tasks : ℚ) / tasks.length) * 100)) := by
      simp [updateProgress, completedCount, hpos.ne']
    have hclose := progress_close (completedCount tasks) tasks.length hpos hc
    have hround := mathRound_close (completedCount tasks) tasks.length hpos hlen _ hclose
    have hn' : (0 : ℚ) < tasks.length := by exact_mod_cast hpos
    have hq0 : (0 : ℚ) ≤ 100 * completedCount tasks / tasks.length := by positivity
    have hq1 : (100 : ℚ) * completedCount tasks / tasks.length ≤ 100 := by
      rw [div_le_iff₀ hn']
      have : (completedCount tasks : ℚ) ≤ tasks.length := by exact_mod_cast hc
      linarith
    have hR0 : 1 ≤ mathRound (100 * completedCount tasks / tasks.length) + 1 := by
      have : 0 ≤ mathRound (100 * completedCount tasks / tasks.length) := by
        unfold mathRound
        rw [Int.le_floor]
        push_cast
        linarith
      omega
    have hR1 : mathRound (100 * completedCount tasks / tasks.length) ≤ 100 := by
      have : mathRound (100 * completedCount tasks / tasks.length) < 101 := by
        unfold mathRound
        rw [Int.floor_lt]
        push_cast
        linarith
      omega
    rw [hval]
    refine ⟨fun h => absurd h hnil, ?_, ?_, fun _ => hround⟩
    · rw [abs_le] at hclose
      unfold mathRound
      rw [Int.le_floor]
      push_cast
      have : (1 : ℚ) / 2 ^ 44 < 1 / 2 := by norm_num
      linarith [hclose.1]
    · exact le_trans hround.2.1 hR1

theorem roundHalfEven_intCast (z : ℤ) : roundHalfEven (z : ℚ) = z := by
  simp [roundHalfEven]

/-- A dyadic rational with a numerator below `2^53` is a binary64 value. -/
theorem roundToDouble_dyadic (a j : ℕ) (ha : 0 < a) (hlt : a < 2 ^ 53) :
    roundToDouble ((a : ℚ) / 2 ^ j) = (a : ℚ) / 2 ^ j := by
  have ha' : (0 : ℚ) < a := by exact_mod_cast ha
  have hx : (0 : ℚ) < (a : ℚ) / 2 ^ j := by positivity
  have hlog : (2 : ℚ) ^ Int.log 2 ((a : ℚ) / 2 ^ j) ≤ (a : ℚ) / 2 ^ j := by
    have := Int.zpow_log_le_self (b := 2) (r := (a : ℚ) / 2 ^ j) (by norm_num) hx
    simpa using this
  unfold roundToDouble
  rw [if_neg hx.ne', abs_of_pos hx]
  simp only []
  generalize Int.log 2 ((a : ℚ) / 2 ^ j) = e at hlog ⊢
  have hej : e + j ≤ 52 := by
    by_contra hcon
    push_neg at hcon
    have h1 : (2 : ℚ) ^ (e + j) ≤ a := by
      rw [zpow_add₀ (by norm_num), zpow_natCast]
      rw [le_div_iff₀ (by positivity)] at hlog
      exact hlog
    have h2 : (2 : ℚ) ^ (53 : ℤ) ≤ 2 ^ (e + j) :=
      zpow_le_zpow_right₀ (by norm_num) (by omega)
    have h3 : (a : ℚ) < 2 ^ (53 : ℤ) := by
      have : (a : ℚ) < ((2 ^ 53 : ℕ) : ℚ) := by exact_mod_cast hlt
      rw [zpow_ofNat]
      exact_mod_cast this
    linarith
  obtain ⟨k, hk⟩ : ∃ k : ℕ, (k : ℤ) = 52 - e - j := ⟨(52 - e - j).toNat, by
    rw [Int.toNat_of_nonneg]; omega⟩
  have he : e - 52 = -((j + k : ℕ) : ℤ) := by push_cast; omega
  have hulp : (2 : ℚ) ^ (e - 52) = ((2 : ℚ) ^ (j + k))⁻¹ := by
    rw [he, zpow_neg, zpow_natCast]
  have hq : (a : ℚ) / 2 ^ j / (2 : ℚ) ^ (e - 52) = ((a * 2 ^ k : ℕ) : ℤ) := by
    rw [hulp, pow_add]
    push_cast
    field_simp
    ring
  rw [hq, roundHalfEven_intCast, hulp, pow_add]
  push_cast
  field_simp
  ring

theorem roundToDouble_natCast (a : ℕ) (hlt : a < 2 ^ 53) : roundToDouble (a : ℚ) = a := by
  rcases Nat.eq_zero_or_pos a with h | h
  · subst h
    simp [roundToDouble]
  · have := roundToDouble_dyadic a 0 h hlt
    simpa using this

/-- Multiplying first meets C8 as it is written: for every count of completed
tasks out of fewer than `2^32`, `Math.round(100 * completed / total)` in Number
arithmetic is the exact percentage rounded to the nearest integer, a half going
up. -/
theorem progressMultiplyFirst_exact (completed total : ℕ) (hpos : 0 < total)
    (hle : completed ≤ total) (h32 : total < 2 ^ 32) :
    progressMultiplyFirst completed total = mathRound (100 * completed / total) := by
  have hn' : (0 : ℚ) < total := by exact_mod_cast hpos
  have h100 : roundToDouble (100 * (completed : ℚ)) = 100 * (completed : ℚ) := by
    have := roundToDouble_natCast (100 * completed) (by omega)
    push_cast at this
    exact this
  unfold progressMultiplyFirst
  rw [h100]
  rcases Nat.eq_zero_or_pos completed with h0 | hc
  · subst h0
    simp [roundToDouble]
  have hc' : (0 : ℚ) < completed := by exact_mod_cast hc
  have hq : (0 : ℚ) < 100 * completed / total := by positivity
  have hq100 : (100 : ℚ) * completed / total ≤ 100 := by
    rw [div_le_iff₀ hn']
    have : (completed : ℚ) ≤ total := by exact_mod_cast hle
    linarith
  by_cases htie : Int.fract ((100 : ℚ) * completed / total) = 1 / 2
  · -- an exact half is a binary64 value
    have hfl : (0 : ℤ) ≤ ⌊(100 : ℚ) * completed / total⌋ := Int.floor_nonneg.2 hq.le
    have hfl2 : ⌊(100 : ℚ) * completed / total⌋ ≤ 100 := by
      have : ⌊(100 : ℚ) * completed / total⌋ < 101 := by
        rw [Int.floor_lt]
        push_cast
        linarith
      omega
    obtain ⟨m, hm⟩ : ∃ m : ℕ, (m : ℤ) = ⌊(100 : ℚ) * completed / total⌋ :=
      ⟨_, Int.toNat_of_nonneg hfl⟩
    have hval : (100 : ℚ) * completed / total = ((2 * m + 1 : ℕ) : ℚ) / 2 ^ 1 := by
      have h := Int.floor_add_fract ((100 : ℚ) * completed / total)
      rw [htie, ← hm] at h
      rw [← h]
      push_cast
      ring
    have hfix := roundToDouble_dyadic (2 * m + 1) 1 (by omega) (by omega)
    rw [hval, hfix]
  · have herr := roundToDouble_err _ hq
    have hclose : |roundToDouble ((100 : ℚ) * completed / total) - 100 * completed / total|
        ≤ 1 / 2 ^ 44 := by
      refine le_trans herr ?_
      have : (100 : ℚ) * completed / total / 2 ^ 53 ≤ 100 / 2 ^ 53 :=
        div_le_div_of_nonneg_right hq100 (by positivity)
      refine le_trans this ?_
      norm_num
    exact (mathRound_close completed total hpos h32 _ hclose).2.2 htie

/-- At the input where the source shows 57, multiplying first shows 58. -/
theorem progressMultiplyFirst_tie_rounds_up : progressMultiplyFirst 23 40 = 58 := by
  rw [progressMultiplyFirst_exact 23 40 (by norm_num) (by norm_num) (by norm_num)]
  unfold mathRound
  rw [Int.floor_eq_iff]
  norm_num

end TodoApp
